import Mathlib

/-!
Verification development for the Terrarun territory engine
(`src/server/lib/territory.js` and the batch-processing loops of
`src/server/index.js`).

The shallow embedding below translates the JavaScript source:
* latitude/longitude coordinates decoded from a polyline are exact
  rationals (the decoder divides integers by 1e5);
* the Web Mercator projection (`Math.log`, `Math.tan`, `Math.atan`,
  `Math.exp`) is embedded over the real numbers;
* JavaScript 32-bit bitwise arithmetic in the polyline decoder is
  modelled exactly (patterns are naturals below 2^32, signed shift and
  bitwise-not are spelled out);
* the Prisma store is a record of lists: one row list per table, with
  `findUnique` as `List.find?`, `create` as an append and `update` as a
  key-preserving map.
-/

namespace Terrarun

/-! ## Constants (territory.js lines 9-17) -/

def CELL_SIZE_METERS : ℝ := 50

def LOOP_CLOSE_METERS : ℝ := 100

def COOLDOWN_HOURS : Int := 12

def HALF_EARTH : ℝ := 20037508.3439

/-! ## Projection (territory.js lines 19-33, 405-410) -/

noncomputable def lngLatToMercator (lng lat : ℝ) : ℝ × ℝ :=
  ((lng * HALF_EARTH) / 180,
   Real.log (Real.tan ((90 + lat) * (Real.pi / 360))) * (HALF_EARTH / Real.pi))

noncomputable def mercatorToLngLat (x y : ℝ) : ℝ × ℝ :=
  ((x * 180) / HALF_EARTH,
   (360 / Real.pi) * Real.arctan (Real.exp ((y * Real.pi) / HALF_EARTH)) - 90)

def getCellId (cellX cellY : ℤ) : String :=
  toString cellX ++ ":" ++ toString cellY

noncomputable def mercatorToCell (x y : ℝ) : ℤ × ℤ :=
  (⌊x / CELL_SIZE_METERS⌋, ⌊y / CELL_SIZE_METERS⌋)

/-- Distance between two points in Web Mercator meters (lines 36-40). -/
noncomputable def distanceMeters (a b : ℝ × ℝ) : ℝ :=
  Real.sqrt ((b.1 - a.1) * (b.1 - a.1) + (b.2 - a.2) * (b.2 - a.2))

/-! ## Trace decoder (territory.js lines 45-72)

JavaScript bitwise operators work on 32-bit two's-complement integers;
`result` is kept as the unsigned 32-bit pattern (a natural below 2^32).
Reading `charCodeAt` past the end of the string yields `NaN`, for which
`NaN & 0x1f = 0` and `NaN >= 0x20` is false, so the inner varint loop
ends; the `[]` case of `decodeVarint` models that phantom read. -/

/-- Reinterpret an unsigned 32-bit pattern as a signed 32-bit value. -/
def jsToInt32 (r : ℕ) : ℤ :=
  if r < 2 ^ 31 then (r : ℤ) else (r : ℤ) - 2 ^ 32

/-- JavaScript `result >> 1` (sign-propagating shift) on a 32-bit pattern. -/
def jsShr1 (r : ℕ) : ℤ := Int.fdiv (jsToInt32 r) 2

/-- `(result & 1) ? ~(result >> 1) : (result >> 1)`; `~x` is `-x - 1`. -/
def zigzagDecode (r : ℕ) : ℤ :=
  if r % 2 = 1 then -(jsShr1 r) - 1 else jsShr1 r

/-- One varint: the do-while loop of `decodePolyline`.  Consumes chunks
while `b >= 0x20`; returns the accumulated 32-bit pattern and the
remaining character codes.  `b & 0x1f` is the low five bits (`emod 32`),
the shift count is masked to five bits and the shifted chunk wraps to 32
bits, exactly as JavaScript `<<` does. -/
def decodeVarint : List ℕ → ℕ → ℕ → ℕ × List ℕ
  | [], _, result => (result, [])
  | c :: rest, shift, result =>
    let b : ℤ := (c : ℤ) - 63
    let chunk : ℕ := (((b.emod 32).toNat <<< (shift % 32)) % 2 ^ 32)
    let result' := result ||| chunk
    if 32 ≤ b then decodeVarint rest (shift + 5) result' else (result', rest)

theorem decodeVarint_rest_length :
    ∀ (l : List ℕ) (s r : ℕ), (decodeVarint l s r).2.length ≤ l.length := by
  intro l
  induction l with
  | nil => intro s r; simp [decodeVarint]
  | cons c rest ih =>
    intro s r
    simp only [decodeVarint]
    split
    · exact (ih _ _).trans (Nat.le_succ _)
    · simp

theorem decodeVarint_cons_length (c : ℕ) (l : List ℕ) (s r : ℕ) :
    (decodeVarint (c :: l) s r).2.length ≤ l.length := by
  simp only [decodeVarint]
  split
  · exact decodeVarint_rest_length _ _ _
  · simp

/-- The main while loop of `decodePolyline`: repeatedly decode a
latitude delta and a longitude delta, accumulate, and emit the point.
Points are kept in exact units of 1e-5 degree (the polyline's native
precision): the source pushes `[lat / 1e5, lng / 1e5]`, and that
division is deferred to the moment a point is projected
(`pointsToMercator`) or cached.  Every comparison the source performs
on coordinates (duplicate tests, ring closure) is an equality, which
the scaling preserves exactly.  `fuel` only bounds the recursion so
that it is structural; every iteration consumes at least one character,
so with `fuel = chars.length` the fuel never runs out
(`decodeLoop_fuel_irrelevant` below). -/
def decodeLoop (fuel : ℕ) (chars : List ℕ) (lat lng : ℤ) : List (ℤ × ℤ) :=
  match fuel, chars with
  | 0, _ => []
  | _ + 1, [] => []
  | f + 1, c :: rest =>
    let d1 := decodeVarint (c :: rest) 0 0
    let dlat := zigzagDecode d1.1
    let d2 := decodeVarint d1.2 0 0
    let dlng := zigzagDecode d2.1
    let lat' := lat + dlat
    let lng' := lng + dlng
    (lat', lng') :: decodeLoop f d2.2 lat' lng'

/-- The fuel bound in `decodeLoop` is an artifact of the embedding: any
fuel at least the number of remaining characters gives the same decode,
so `decodeLoop chars.length chars` is the source's unbounded loop. -/
theorem decodeLoop_fuel_irrelevant :
    ∀ (f g : ℕ) (chars : List ℕ) (lat lng : ℤ), chars.length ≤ f →
      chars.length ≤ g → decodeLoop f chars lat lng = decodeLoop g chars lat lng := by
  intro f
  induction f with
  | zero =>
    intro g chars lat lng hf _
    match chars, hf with
    | [], _ => cases g <;> rfl
  | succ f ih =>
    intro g chars lat lng hf hg
    match chars with
    | [] => cases g <;> rfl
    | c :: rest =>
      match g, hg with
      | g + 1, hg =>
        simp only [decodeLoop]
        refine congrArg _ (ih g _ _ _ ?_ ?_)
        · exact ((decodeVarint_rest_length _ _ _).trans
            (decodeVarint_cons_length c rest 0 0)).trans (Nat.succ_le_succ_iff.mp hf)
        · exact ((decodeVarint_rest_length _ _ _).trans
            (decodeVarint_cons_length c rest 0 0)).trans (Nat.succ_le_succ_iff.mp hg)

/-- Decode a Google/Strava polyline into `[lat, lng]` pairs in units
of 1e-5 degree (lines 45-72).  A non-string argument is outside the
typed embedding; `!encoded` is true exactly for the empty string. -/
def decodePolyline (encoded : String) : List (ℤ × ℤ) :=
  if encoded.isEmpty then []
  else
    let chars := encoded.data.map Char.toNat
    decodeLoop chars.length chars 0 0

/-! ## Loop validator (territory.js lines 89-107) -/

/-- The dedup loop of `cleanPolygonPoints`: drop a point equal (as an
`[lng, lat]` pair) to the previously kept point, and swap each kept
`[lat, lng]` into `[lng, lat]`. -/
def dedupPoints : List (ℤ × ℤ) → Option (ℤ × ℤ) → List (ℤ × ℤ)
  | [], _ => []
  | p :: rest, last =>
    let lnglat := (p.2, p.1)
    match last with
    | some l =>
      if l = lnglat then dedupPoints rest last
      else lnglat :: dedupPoints rest (some lnglat)
    | none => lnglat :: dedupPoints rest (some lnglat)

/-- `cleanPolygonPoints` (lines 89-107): needs at least 3 points, dedups
consecutive points, force-closes the ring, requires at least 4 points. -/
def cleanPolygonPoints (pointsLatLng : List (ℤ × ℤ)) : Option (List (ℤ × ℤ)) :=
  if pointsLatLng.length < 3 then none
  else
    let out := dedupPoints pointsLatLng none
    if out.length < 3 then none
    else
      let first := out.headD (0, 0)
      let lastPt := out.getLastD (0, 0)
      let out2 := if first.1 ≠ lastPt.1 ∨ first.2 ≠ lastPt.2 then out ++ [first] else out
      if 4 ≤ out2.length then some out2 else none

/-- `pointsToMercator` (lines 77-82): turn each scaled `[lat, lng]`
pair into degrees and project it; only the planar `(x, y)` components
are consumed downstream. -/
noncomputable def pointsToMercator (pointsLatLng : List (ℤ × ℤ)) : List (ℝ × ℝ) :=
  pointsLatLng.map (fun p => lngLatToMercator ((p.2 : ℝ) / 100000) ((p.1 : ℝ) / 100000))

/-! ## Rasterizer (territory.js lines 112-171) -/

open scoped Classical in
/-- One iteration of the ray-casting loop (lines 115-121): edge `e` is
`(polygon[i], polygon[j])` with `j = i - 1` cyclically. -/
noncomputable def edgeCross (px py : ℝ) (e : (ℝ × ℝ) × (ℝ × ℝ)) : Bool :=
  decide ((e.1.2 > py) ≠ (e.2.2 > py)) &&
    decide (px < (e.2.1 - e.1.1) * (py - e.1.2) / (e.2.2 - e.1.2) + e.1.1)

/-- The `(polygon[i], polygon[j])` pairs visited by the loop of
`pointInPolygon`: `j` starts at `n - 1` and trails `i`. -/
def pipEdges (polygon : List (ℝ × ℝ)) : List ((ℝ × ℝ) × (ℝ × ℝ)) :=
  match polygon.getLast? with
  | none => []
  | some lst => polygon.zip (lst :: polygon.dropLast)

/-- `pointInPolygon` (lines 112-123): even-odd ray casting in Mercator. -/
noncomputable def pointInPolygon (px py : ℝ) (polygon : List (ℝ × ℝ)) : Bool :=
  (pipEdges polygon).foldl
    (fun inside e => if edgeCross px py e then !inside else inside) false

structure CellInfo where
  cellId : String
  cellX : ℤ
  cellY : ℤ
  deriving DecidableEq, Repr

/-- Integer range `a..b` inclusive, the index sets of the two `for` loops. -/
def intRange (a b : ℤ) : List ℤ :=
  (List.range (b + 1 - a).toNat).map (fun n => a + (n : ℤ))

/-- The bounding-box loop of `polygonToCells` (lines 139-146): fold the
four accumulators `(minX, maxX, minY, maxY)` over the remaining points. -/
noncomputable def bboxFold (rest : List (ℝ × ℝ)) (init : ℝ × ℝ × ℝ × ℝ) : ℝ × ℝ × ℝ × ℝ :=
  rest.foldl
    (fun acc p =>
      (if p.1 < acc.1 then p.1 else acc.1,
       if acc.2.1 < p.1 then p.1 else acc.2.1,
       if p.2 < acc.2.2.1 then p.2 else acc.2.2.1,
       if acc.2.2.2 < p.2 then p.2 else acc.2.2.2))
    init

/-- Body of the nested cell scan of `polygonToCells` (lines 159-168):
test the candidate cell's center, skip ids already seen, push new cells
at the end in scan order. -/
noncomputable def rasterStep (polygon : List (ℝ × ℝ))
    (acc : List String × List CellInfo) (c : ℤ × ℤ) :
    List String × List CellInfo :=
  let centerX := ((c.1 : ℝ) + 0.5) * CELL_SIZE_METERS
  let centerY := ((c.2 : ℝ) + 0.5) * CELL_SIZE_METERS
  if pointInPolygon centerX centerY polygon then
    let cellId := getCellId c.1 c.2
    if acc.1.contains cellId then acc
    else (cellId :: acc.1, acc.2 ++ [⟨cellId, c.1, c.2⟩])
  else acc

/-- The nested cell scan of `polygonToCells` (lines 157-169), with the
`seen` set as a list of ids. -/
noncomputable def rasterScan (polygon : List (ℝ × ℝ)) (candidates : List (ℤ × ℤ)) :
    List String × List CellInfo :=
  candidates.foldl (rasterStep polygon) ([], [])

open scoped Classical in
/-- `polygonToCells` (lines 130-171).  The first argument is unused in
the source as well; the closure re-check inside uses the ring's own
first and last points.  The `MAX_LOOP_CELLS_WARN` diagnostic only logs
and does not affect the result. -/
noncomputable def polygonToCells (pointsLatLng polygonLngLat : List (ℤ × ℤ)) :
    List CellInfo :=
  if polygonLngLat.length < 4 then []
  else
    let mercator := pointsToMercator (polygonLngLat.map (fun p => (p.2, p.1)))
    let first := mercator.headD (0, 0)
    let lastP := mercator.getLastD (0, 0)
    if LOOP_CLOSE_METERS < distanceMeters first lastP then []
    else
      let bbox := bboxFold mercator.tail (first.1, first.1, first.2, first.2)
      let cellXMin := ⌊bbox.1 / CELL_SIZE_METERS⌋
      let cellXMax := ⌊bbox.2.1 / CELL_SIZE_METERS⌋
      let cellYMin := ⌊bbox.2.2.1 / CELL_SIZE_METERS⌋
      let cellYMax := ⌊bbox.2.2.2 / CELL_SIZE_METERS⌋
      (rasterScan mercator
        ((intRange cellXMin cellXMax).flatMap fun cx =>
          (intRange cellYMin cellYMax).map fun cy => (cx, cy))).2

/-! ## Data model (prisma tables used by the engine) -/

inductive ClaimReason where
  | LOOP_CAPTURE
  | LOOP_DEFEND_REFRESH
  deriving DecidableEq, Repr

structure TerritoryCell where
  cellId : String
  cellX : ℤ
  cellY : ℤ
  ownerUserId : ℕ
  lockedUntil : Int
  lastClaimedAt : Int
  lastActivityId : ℕ
  deriving DecidableEq, Repr

structure TerritoryClaim where
  cellId : String
  cellX : ℤ
  cellY : ℤ
  claimerUserId : ℕ
  previousOwnerUserId : Option ℕ
  activityId : ℕ
  reason : ClaimReason
  deriving DecidableEq, Repr

structure Activity where
  id : ℕ
  summaryPolyline : Option String
  loopCache : Option (List (ℤ × ℤ) × ℤ × ℤ × ℤ × ℤ)
  deriving DecidableEq, Repr

structure User where
  id : ℕ
  nickname : Option String
  deriving DecidableEq, Repr

structure Friendship where
  userId : ℕ
  friendId : ℕ
  deriving DecidableEq, Repr

/-- A `TERRITORY_CONQUERED` notification row; the `meta` JSON fields are
inlined.  `bbox` is `(minLng, minLat, maxLng, maxLat)`. -/
structure Notification where
  userId : ℕ
  type : String
  title : String
  body : String
  cellIds : List String
  countLost : ℕ
  bbox : Option (ℝ × ℝ × ℝ × ℝ)
  centroid : Option (ℝ × ℝ)
  attackerUserId : ℕ
  attackerNickname : Option String

/-- The persistent store: one list of rows per table. -/
structure Store where
  cells : List TerritoryCell
  claims : List TerritoryClaim
  activities : List Activity
  users : List User
  friendships : List Friendship
  notifications : List Notification

/-- `prisma.territoryCell.findUnique({ where: { cellId } })`. -/
def findCell (st : Store) (cellId : String) : Option TerritoryCell :=
  st.cells.find? (fun c => c.cellId == cellId)

/-- `prisma.territoryCell.update({ where: { cellId }, data })`. -/
def updateCells (cells : List TerritoryCell) (cellId : String)
    (f : TerritoryCell → TerritoryCell) : List TerritoryCell :=
  cells.map (fun c => if c.cellId == cellId then f c else c)

def findUser (st : Store) (id : ℕ) : Option User :=
  st.users.find? (fun u => u.id == id)

/-- `prisma.friendship.findFirst` over both orientations (lines 350-357). -/
def friendshipExists (st : Store) (previousOwnerId userId : ℕ) : Bool :=
  st.friendships.any (fun f =>
    (f.userId == previousOwnerId && f.friendId == userId) ||
    (f.userId == userId && f.friendId == previousOwnerId))

/-- `prisma.activity.update` writing the cached loop polygon and bbox
(ring and bbox in 1e-5 degree units; `Math.min`/`Math.max` over degree
values agree with scaled min/max because the scaling is monotone). -/
def setLoopCache (acts : List Activity) (id : ℕ)
    (cache : List (ℤ × ℤ) × ℤ × ℤ × ℤ × ℤ) : List Activity :=
  acts.map (fun a => if a.id == id then { a with loopCache := some cache } else a)

/-- `cellToGeoJSONRing` (territory.js lines 413-429): the four corners
of the 50 m planar square of a cell, mapped back to geography, closed
with a repeated first corner. -/
noncomputable def cellToGeoJSONRing (cellX cellY : ℤ) : List (ℝ × ℝ) :=
  let x0 := (cellX : ℝ) * CELL_SIZE_METERS
  let y0 := (cellY : ℝ) * CELL_SIZE_METERS
  let x1 := ((cellX : ℝ) + 1) * CELL_SIZE_METERS
  let y1 := ((cellY : ℝ) + 1) * CELL_SIZE_METERS
  let sw := mercatorToLngLat x0 y0
  let se := mercatorToLngLat x1 y0
  let ne := mercatorToLngLat x1 y1
  let nw := mercatorToLngLat x0 y1
  [sw, se, ne, nw, sw]

/-! ## Claim resolver (territory.js lines 177-386) -/

/-- Result record of `applyLoopClaims` (line 385). -/
structure LoopResult where
  gainedCellIds : List String
  lostCellIds : List String
  defendedCellIds : List String
  cellsCreated : ℕ
  claimsCreated : ℕ
  loopPolygonGeojson : Option (List (ℤ × ℤ))

def zeroResult : LoopResult := ⟨[], [], [], 0, 0, none⟩

/-- State threaded through the per-cell loop (lines 178-184 and
235-325): the store, the result accumulators and the
`lostByPreviousOwner` map (an insertion-ordered association list). -/
structure LoopState where
  st : Store
  gainedCellIds : List String
  lostCellIds : List String
  defendedCellIds : List String
  cellsCreated : ℕ
  claimsCreated : ℕ
  lostMap : List (ℕ × List String × List (ℤ × ℤ))

/-- `lostByPreviousOwner.get / set` (lines 318-324): extend the entry
for `owner`, creating it at the end on first use (JS `Map` iteration is
in insertion order). -/
def lostMapAdd (m : List (ℕ × List String × List (ℤ × ℤ))) (owner : ℕ)
    (cellId : String) (xy : ℤ × ℤ) : List (ℕ × List String × List (ℤ × ℤ)) :=
  if m.any (fun e => e.1 == owner) then
    m.map (fun e => if e.1 == owner then (e.1, e.2.1 ++ [cellId], e.2.2 ++ [xy]) else e)
  else m ++ [(owner, [cellId], [xy])]

/-- `lockedUntil` granted by a successful claim (line 233):
`now + COOLDOWN_HOURS * 60 * 60 * 1000` milliseconds. -/
def lockedUntilNew (now : Int) : Int := now + COOLDOWN_HOURS * 60 * 60 * 1000

/-- The `data` object of the refresh `territoryCell.update` (lines
268-275). -/
def refreshCell (now : Int) (activityId : ℕ) (cell : TerritoryCell) : TerritoryCell :=
  { cell with lockedUntil := lockedUntilNew now, lastClaimedAt := now,
              lastActivityId := activityId }

/-- The `data` object of the capture `territoryCell.update` (lines
295-303). -/
def transferCell (userId : ℕ) (now : Int) (activityId : ℕ)
    (cell : TerritoryCell) : TerritoryCell :=
  { cell with ownerUserId := userId, lockedUntil := lockedUntilNew now,
              lastClaimedAt := now, lastActivityId := activityId }

/-- One iteration of the per-cell loop (lines 235-325): the four-way
ownership state machine. -/
def processCell (userId : ℕ) (now : Int) (activityId : ℕ)
    (s : LoopState) (c : CellInfo) : LoopState :=
  match findCell s.st c.cellId with
  | none =>
    let newCell : TerritoryCell :=
      ⟨c.cellId, c.cellX, c.cellY, userId, lockedUntilNew now, now, activityId⟩
    let newClaim : TerritoryClaim :=
      ⟨c.cellId, c.cellX, c.cellY, userId, none, activityId, .LOOP_CAPTURE⟩
    { s with
      st := { s.st with
        cells := s.st.cells ++ [newCell],
        claims := s.st.claims ++ [newClaim] }
      cellsCreated := s.cellsCreated + 1
      claimsCreated := s.claimsCreated + 1
      gainedCellIds := s.gainedCellIds ++ [c.cellId] }
  | some existing =>
    if existing.ownerUserId == userId then
      let newClaim : TerritoryClaim :=
        ⟨c.cellId, c.cellX, c.cellY, userId, some userId, activityId, .LOOP_DEFEND_REFRESH⟩
      { s with
        st := { s.st with
          cells := updateCells s.st.cells c.cellId (refreshCell now activityId),
          claims := s.st.claims ++ [newClaim] }
        claimsCreated := s.claimsCreated + 1
        defendedCellIds := s.defendedCellIds ++ [c.cellId] }
    else if now < existing.lockedUntil then s
    else
      let previousOwnerId := existing.ownerUserId
      let newClaim : TerritoryClaim :=
        ⟨c.cellId, c.cellX, c.cellY, userId, some previousOwnerId, activityId, .LOOP_CAPTURE⟩
      { s with
        st := { s.st with
          cells := updateCells s.st.cells c.cellId (transferCell userId now activityId),
          claims := s.st.claims ++ [newClaim] }
        claimsCreated := s.claimsCreated + 1
        gainedCellIds := s.gainedCellIds ++ [c.cellId]
        lostCellIds := s.lostCellIds ++ [c.cellId]
        lostMap := lostMapAdd s.lostMap previousOwnerId c.cellId (c.cellX, c.cellY) }

/-! ## Conquest aggregator (territory.js lines 327-380) -/

/-- Planar center of a cell mapped back to geography (lines 336-338). -/
noncomputable def cellCenterLngLat (xy : ℤ × ℤ) : ℝ × ℝ :=
  mercatorToLngLat ((xy.1 : ℝ) * CELL_SIZE_METERS + CELL_SIZE_METERS / 2)
    ((xy.2 : ℝ) * CELL_SIZE_METERS + CELL_SIZE_METERS / 2)

/-- Bounding box and centroid of the lost cells' centers (lines
333-348).  The source starts the min/max folds from `Infinity`; for a
nonempty list that equals folding from the first center, and for the
empty list both `bbox` and `centroid` are `null`. -/
noncomputable def conquestGeo (coords : List (ℤ × ℤ)) :
    Option ((ℝ × ℝ × ℝ × ℝ) × (ℝ × ℝ)) :=
  let centers := coords.map cellCenterLngLat
  match centers with
  | [] => none
  | c0 :: rest =>
    let bbox := rest.foldl
      (fun a p => (min a.1 p.1, min a.2.1 p.2, max a.2.2.1 p.1, max a.2.2.2 p.2))
      (c0.1, c0.2, c0.1, c0.2)
    let sumLng := centers.foldl (fun s p => s + p.1) 0
    let sumLat := centers.foldl (fun s p => s + p.2) 0
    some (bbox, (sumLng / centers.length, sumLat / centers.length))

/-- One notification payload (lines 329-378). -/
noncomputable def conquestNotification (st : Store) (claimerId : ℕ)
    (claimerNickname : Option String) (owner : ℕ) (ids : List String)
    (coords : List (ℤ × ℤ)) : Notification :=
  let geo := conquestGeo coords
  let isFriend := friendshipExists st owner claimerId
  let attackerNickname := if isFriend then claimerNickname else none
  let body := match attackerNickname with
    | some nick => nick ++ " conquered part of your territory."
    | none => "Some of your land was taken while you were away."
  { userId := owner
    type := "TERRITORY_CONQUERED"
    title := "Your territory was conquered!"
    body := body
    cellIds := ids.take 100
    countLost := ids.length
    bbox := geo.map (·.1)
    centroid := geo.map (·.2)
    attackerUserId := claimerId
    attackerNickname := attackerNickname }

/-- One `prisma.notification.create` (lines 363-378), appended to the
notifications table. -/
noncomputable def conquestAppend (st : Store) (claimerId : ℕ)
    (claimerNickname : Option String) (acc : Store)
    (e : ℕ × List String × List (ℤ × ℤ)) : Store :=
  { acc with notifications := acc.notifications ++
      [conquestNotification st claimerId claimerNickname e.1 e.2.1 e.2.2] }

/-- The notification block (lines 327-380): skipped when no owner lost
cells, otherwise one `prisma.notification.create` per map entry. -/
noncomputable def emitConquest (st : Store) (claimerId : ℕ)
    (entries : List (ℕ × List String × List (ℤ × ℤ))) : Store :=
  if entries.isEmpty then st
  else
    let claimerNickname := (findUser st claimerId).bind (·.nickname)
    entries.foldl (conquestAppend st claimerId claimerNickname) st

/-- Smallest element of a list (`Math.min(...l)`); only used on
nonempty lists (the ring has at least 4 points). -/
def zListMin : List ℤ → ℤ
  | [] => 0
  | x :: xs => xs.foldl min x

def zListMax : List ℤ → ℤ
  | [] => 0
  | x :: xs => xs.foldl max x

/-- The cached loop data written by `prisma.activity.update` (lines
210-230): the ring and its lng/lat bounding box. -/
def loopCacheOf (ring : List (ℤ × ℤ)) : List (ℤ × ℤ) × ℤ × ℤ × ℤ × ℤ :=
  (ring, zListMin (ring.map (·.1)), zListMin (ring.map (·.2)),
   zListMax (ring.map (·.1)), zListMax (ring.map (·.2)))

/-- Body of `applyLoopClaims` after the polyline has been decoded,
cleaned and the closure check passed (lines 207-386): rasterize, cache
the loop polygon once if any cell was produced, run the per-cell state
machine, then aggregate conquests. -/
noncomputable def applyLoopClaimsRest (st : Store) (userId : ℕ) (activity : Activity)
    (now : Int) (pointsLatLng polygonLngLat : List (ℤ × ℤ)) : Store × LoopResult :=
  let cells := polygonToCells pointsLatLng polygonLngLat
  let ring := polygonLngLat
  let st1 :=
    if cells.length > 0 then
      { st with activities := setLoopCache st.activities activity.id (loopCacheOf ring) }
    else st
  let init : LoopState := ⟨st1, [], [], [], 0, 0, []⟩
  let fin := cells.foldl (processCell userId now activity.id) init
  let st2 := emitConquest fin.st userId fin.lostMap
  (st2,
   ⟨fin.gainedCellIds, fin.lostCellIds, fin.defendedCellIds, fin.cellsCreated,
    fin.claimsCreated, if cells.length > 0 then some ring else none⟩)

/-- `applyLoopClaims` (lines 177-386).  `now` is the wall-clock time the
source reads at line 232; the result is the new store plus the returned
record. -/
noncomputable def applyLoopClaims (st : Store) (userId : ℕ) (activity : Activity)
    (now : Int) : Store × LoopResult :=
  match activity.summaryPolyline with
  | none => (st, zeroResult)
  | some polyline =>
    if polyline.isEmpty then (st, zeroResult)
    else
      let pointsLatLng := decodePolyline polyline
      match cleanPolygonPoints pointsLatLng with
      | none => (st, zeroResult)
      | some polygonLngLat =>
        let pointsMercator := pointsToMercator pointsLatLng
        let first := pointsMercator.headD (0, 0)
        let lastP := pointsMercator.getLastD (0, 0)
        if LOOP_CLOSE_METERS < distanceMeters first lastP then (st, zeroResult)
        else applyLoopClaimsRest st userId activity now pointsLatLng polygonLngLat

/-! ## Batch processing (index.js lines 824-857 and 590-640)

A Prisma call inside `applyLoopClaims` may throw.  Earlier per-cell
writes are not rolled back (there is no enclosing transaction), so the
store an exception leaves behind is the one after some prefix of the
cells.  `applyLoopClaimsUpTo st u a now k` models a storage error thrown
while persisting the `(k+1)`-th cell: the gates and the loop-cache write
behave as in `applyLoopClaims`, only the first `k` cells are applied,
and the conquest notifications (which come after the loop) never run. -/

noncomputable def applyLoopClaimsUpTo (st : Store) (userId : ℕ) (activity : Activity)
    (now : Int) (k : ℕ) : Store :=
  match activity.summaryPolyline with
  | none => st
  | some polyline =>
    if polyline.isEmpty then st
    else
      let pointsLatLng := decodePolyline polyline
      match cleanPolygonPoints pointsLatLng with
      | none => st
      | some polygonLngLat =>
        let pointsMercator := pointsToMercator pointsLatLng
        let first := pointsMercator.headD (0, 0)
        let lastP := pointsMercator.getLastD (0, 0)
        if LOOP_CLOSE_METERS < distanceMeters first lastP then st
        else
          let cells := polygonToCells pointsLatLng polygonLngLat
          let ring := polygonLngLat
          let st1 :=
            if cells.length > 0 then
              { st with activities := setLoopCache st.activities activity.id (loopCacheOf ring) }
            else st
          let init : LoopState := ⟨st1, [], [], [], 0, 0, []⟩
          ((cells.take k).foldl (processCell userId now activity.id) init).st

/-- The territory pass of `POST /api/strava/resync` (index.js lines
846-857): iterate the user's activities; `applyLoopClaims` runs inside
`try`, and on an exception the error is logged, the result discarded and
the loop continues with the next activity.  `failPlan a.id = some k`
means processing of activity `a` throws after `k` cells; activities
without a polyline contribute nothing either way (the source `continue`
matches `applyLoopClaims` returning the store unchanged). -/
noncomputable def resyncProcess (st : Store) (userId : ℕ) (acts : List Activity)
    (now : Int) (failPlan : ℕ → Option ℕ) : Store × List String × List String :=
  acts.foldl
    (fun acc a =>
      match failPlan a.id with
      | some k => (applyLoopClaimsUpTo acc.1 userId a now k, acc.2.1, acc.2.2)
      | none =>
        let r := applyLoopClaims acc.1 userId a now
        (r.1, acc.2.1 ++ r.2.gainedCellIds, acc.2.2 ++ r.2.lostCellIds))
    (st, [], [])

/-! ## Supporting lemmas: projection on the equator, distances -/

theorem lngLatToMercator_equator (lng : ℝ) :
    lngLatToMercator lng 0 = (lng * HALF_EARTH / 180, 0) := by
  unfold lngLatToMercator
  have h : (90 + (0 : ℝ)) * (Real.pi / 360) = Real.pi / 4 := by ring
  rw [h, Real.tan_pi_div_four, Real.log_one, zero_mul]

theorem distanceMeters_self (p : ℝ × ℝ) : distanceMeters p p = 0 := by
  unfold distanceMeters
  have h : (p.1 - p.1) * (p.1 - p.1) + (p.2 - p.2) * (p.2 - p.2) = 0 := by ring
  rw [h, Real.sqrt_zero]

theorem distanceMeters_horizontal (x1 x2 : ℝ) :
    distanceMeters (x1, 0) (x2, 0) = |x2 - x1| := by
  unfold distanceMeters
  have h : (x2 - x1) * (x2 - x1) + ((0 : ℝ) - 0) * (0 - 0) = (x2 - x1) ^ 2 := by ring
  rw [h, Real.sqrt_sq_eq_abs]

theorem decodePolyline_of_isEmpty {s : String} (h : s.isEmpty = true) :
    decodePolyline s = [] := by
  simp [decodePolyline, h]

theorem cleanPolygonPoints_nil : cleanPolygonPoints [] = none := by decide

/-! ## C4: degenerate inputs give a zero result and no writes -/

/-- C4: an absent polyline, an empty polyline, a decoded sequence the
loop validator rejects (fewer than 3 distinct points or a ring below 4
points), and a non-closing trace each make `applyLoopClaims` return the
zero result with the store untouched; `decodePolyline` maps the empty
string to the empty sequence (and is total on all strings by
construction). -/
theorem C4_degenerate_inputs_zero_result :
    decodePolyline "" = [] ∧
    (∀ (st : Store) (u : ℕ) (a : Activity) (now : Int),
      a.summaryPolyline = none → applyLoopClaims st u a now = (st, zeroResult)) ∧
    (∀ (st : Store) (u : ℕ) (a : Activity) (now : Int),
      a.summaryPolyline = some "" → applyLoopClaims st u a now = (st, zeroResult)) ∧
    (∀ (st : Store) (u : ℕ) (a : Activity) (now : Int) (s : String),
      a.summaryPolyline = some s →
      cleanPolygonPoints (decodePolyline s) = none →
      applyLoopClaims st u a now = (st, zeroResult)) ∧
    (∀ (st : Store) (u : ℕ) (a : Activity) (now : Int) (s : String)
        (poly : List (ℤ × ℤ)),
      a.summaryPolyline = some s →
      cleanPolygonPoints (decodePolyline s) = some poly →
      LOOP_CLOSE_METERS <
        distanceMeters ((pointsToMercator (decodePolyline s)).headD (0, 0))
          ((pointsToMercator (decodePolyline s)).getLastD (0, 0)) →
      applyLoopClaims st u a now = (st, zeroResult)) := by
  refine ⟨by decide, ?_, ?_, ?_, ?_⟩
  · intro st u a now h
    unfold applyLoopClaims
    rw [h]
  · intro st u a now h
    unfold applyLoopClaims
    rw [h]
    simp only [show String.isEmpty "" = true from by decide, if_true]
  · intro st u a now s hp hc
    unfold applyLoopClaims
    rw [hp]
    cases he : s.isEmpty
    · simp only [he, Bool.false_eq_true, if_false]
      rw [hc]
    · simp only [he, if_true]
  · intro st u a now s poly hp hc hd
    unfold applyLoopClaims
    rw [hp]
    cases he : s.isEmpty
    · simp only [he, Bool.false_eq_true, if_false]
      rw [hc]
      simp only [if_pos hd]
    · simp only [he, if_true]

/-- Witness for C4 at concrete inputs: a polyline-less activity, an
empty polyline, the one-point polyline `"?"`, and the equator trace
`"???E?yhbE"` whose endpoints are a degree of longitude apart
(about 111 km in Web Mercator meters). -/
theorem C4_witness :
    applyLoopClaims ⟨[], [], [], [], [], []⟩ 1 ⟨1, none, none⟩ 0 =
      (⟨[], [], [], [], [], []⟩, zeroResult) ∧
    applyLoopClaims ⟨[], [], [], [], [], []⟩ 1 ⟨1, some "", none⟩ 0 =
      (⟨[], [], [], [], [], []⟩, zeroResult) ∧
    applyLoopClaims ⟨[], [], [], [], [], []⟩ 1 ⟨1, some "?", none⟩ 0 =
      (⟨[], [], [], [], [], []⟩, zeroResult) ∧
    applyLoopClaims ⟨[], [], [], [], [], []⟩ 1 ⟨1, some "???E?yhbE", none⟩ 0 =
      (⟨[], [], [], [], [], []⟩, zeroResult) := by
  have hd : decodePolyline "???E?yhbE" = [(0, 0), (0, 3), (0, 100000)] := by decide
  have hhead : (pointsToMercator (decodePolyline "???E?yhbE")).headD (0, 0) = (0, 0) := by
    rw [hd]
    simp only [pointsToMercator, List.map_cons, List.map_nil, List.headD_cons]
    norm_num [lngLatToMercator_equator]
  have hlast : (pointsToMercator (decodePolyline "???E?yhbE")).getLastD (0, 0) =
      (HALF_EARTH / 180, 0) := by
    rw [hd]
    simp only [pointsToMercator, List.map_cons, List.map_nil]
    rw [show ∀ (a b c : ℝ × ℝ), ([a, b, c] : List (ℝ × ℝ)).getLastD (0, 0) = c
      from fun a b c => rfl]
    norm_num [lngLatToMercator_equator]
  have hdist : LOOP_CLOSE_METERS <
      distanceMeters ((pointsToMercator (decodePolyline "???E?yhbE")).headD (0, 0))
        ((pointsToMercator (decodePolyline "???E?yhbE")).getLastD (0, 0)) := by
    rw [hhead, hlast, distanceMeters_horizontal]
    rw [abs_of_pos (by unfold HALF_EARTH; norm_num)]
    unfold LOOP_CLOSE_METERS HALF_EARTH
    norm_num
  exact ⟨C4_degenerate_inputs_zero_result.2.1 _ 1 _ 0 rfl,
    C4_degenerate_inputs_zero_result.2.2.1 _ 1 _ 0 rfl,
    C4_degenerate_inputs_zero_result.2.2.2.1 _ 1 _ 0 "?" rfl (by decide),
    C4_degenerate_inputs_zero_result.2.2.2.2 _ 1 _ 0 "???E?yhbE"
      [(0, 0), (3, 0), (100000, 0), (0, 0)] rfl (by decide) hdist⟩

/-! ## C3: the 100 m closure threshold -/

/-- The closure gate of `applyLoopClaims`, isolated: with a polyline
that decodes and cleans successfully, the run reduces to the threshold
comparison on the raw trace's projected endpoints. -/
theorem applyLoopClaims_gate (st : Store) (u : ℕ) (a : Activity) (now : Int)
    (s : String) (poly : List (ℤ × ℤ))
    (hp : a.summaryPolyline = some s)
    (hc : cleanPolygonPoints (decodePolyline s) = some poly) :
    applyLoopClaims st u a now =
      if LOOP_CLOSE_METERS <
          distanceMeters ((pointsToMercator (decodePolyline s)).headD (0, 0))
            ((pointsToMercator (decodePolyline s)).getLastD (0, 0))
      then (st, zeroResult)
      else applyLoopClaimsRest st u a now (decodePolyline s) poly := by
  have hne : s.isEmpty = false := by
    cases he : s.isEmpty
    · rfl
    · rw [decodePolyline_of_isEmpty he, cleanPolygonPoints_nil] at hc
      exact absurd hc (by simp)
  unfold applyLoopClaims
  rw [hp]
  simp only [hne, Bool.false_eq_true, if_false]
  rw [hc]

/-- The closed equator witness loop passes the closure gate: its raw
trace starts and ends at the same projected point. -/
theorem closedEquatorLoop_gate :
    ¬ (LOOP_CLOSE_METERS <
      distanceMeters
        ((pointsToMercator (decodePolyline "???_ibE_ibE?~hbE~hbE")).headD (0, 0))
        ((pointsToMercator (decodePolyline "???_ibE_ibE?~hbE~hbE")).getLastD (0, 0))) := by
  have hd : decodePolyline "???_ibE_ibE?~hbE~hbE" =
      [(0, 0), (0, 100000), (100000, 100000), (0, 0)] := by decide
  have hhead : (pointsToMercator (decodePolyline "???_ibE_ibE?~hbE~hbE")).headD (0, 0) =
      (0, 0) := by
    rw [hd]
    simp only [pointsToMercator, List.map_cons, List.map_nil, List.headD_cons]
    norm_num [lngLatToMercator_equator]
  have hlast : (pointsToMercator (decodePolyline "???_ibE_ibE?~hbE~hbE")).getLastD (0, 0) =
      (0, 0) := by
    rw [hd]
    simp only [pointsToMercator, List.map_cons, List.map_nil]
    rw [show ∀ (a b c d : ℝ × ℝ), ([a, b, c, d] : List (ℝ × ℝ)).getLastD (0, 0) = d
      from fun a b c d => rfl]
    norm_num [lngLatToMercator_equator]
  rw [hhead, hlast, distanceMeters_self, not_lt]
  unfold LOOP_CLOSE_METERS
  norm_num

/-- C3: once the trace decodes and cleans into a valid ring, the engine
continues into rasterization and claiming exactly when the planar
distance between the raw trace's projected first and last points is at
most `LOOP_CLOSE_METERS` (100 m, boundary included), and returns the
zero result with the store untouched when that distance exceeds 100 m,
regardless of the interior geometry. -/
theorem C3_closure_threshold (st : Store) (u : ℕ) (a : Activity) (now : Int)
    (s : String) (poly : List (ℤ × ℤ))
    (hp : a.summaryPolyline = some s)
    (hc : cleanPolygonPoints (decodePolyline s) = some poly) :
    applyLoopClaims st u a now =
      if LOOP_CLOSE_METERS <
          distanceMeters ((pointsToMercator (decodePolyline s)).headD (0, 0))
            ((pointsToMercator (decodePolyline s)).getLastD (0, 0))
      then (st, zeroResult)
      else applyLoopClaimsRest st u a now (decodePolyline s) poly :=
  applyLoopClaims_gate st u a now s poly hp hc

/-- Witness for C3: the closed equator loop `"???_ibE_ibE?~hbE~hbE"`
(its raw trace starts and ends at the same point, so the first/last
distance is 0 ≤ 100 m) passes the closure gate and the engine proceeds
into `applyLoopClaimsRest`. -/
theorem C3_witness :
    applyLoopClaims ⟨[], [], [], [], [], []⟩ 1
        ⟨1, some "???_ibE_ibE?~hbE~hbE", none⟩ 5 =
      applyLoopClaimsRest ⟨[], [], [], [], [], []⟩ 1
        ⟨1, some "???_ibE_ibE?~hbE~hbE", none⟩ 5
        (decodePolyline "???_ibE_ibE?~hbE~hbE")
        [(0, 0), (100000, 0), (100000, 100000), (0, 0)] := by
  have h := C3_closure_threshold ⟨[], [], [], [], [], []⟩ 1
    ⟨1, some "???_ibE_ibE?~hbE~hbE", none⟩ 5 "???_ibE_ibE?~hbE~hbE"
    [(0, 0), (100000, 0), (100000, 100000), (0, 0)] rfl (by decide)
  rw [h, if_neg closedEquatorLoop_gate]

/-! ## The per-cell state machine, classified against a fixed store

The claims about the Claim Resolver are stated through a pointwise
classification of each rasterized cell against the store as it stood
when `applyLoopClaims` began.  Because the rasterizer emits each cell id
at most once, the sequential loop and the pointwise classification
agree (`processCells_foldl`). -/

def isCreate (st0 : Store) (c : CellInfo) : Bool :=
  (findCell st0 c.cellId).isNone

def isRefresh (st0 : Store) (u : ℕ) (c : CellInfo) : Bool :=
  match findCell st0 c.cellId with
  | some e => e.ownerUserId == u
  | none => false

def isLockedSkip (st0 : Store) (u : ℕ) (now : Int) (c : CellInfo) : Bool :=
  match findCell st0 c.cellId with
  | some e => e.ownerUserId != u && decide (now < e.lockedUntil)
  | none => false

def isTransfer (st0 : Store) (u : ℕ) (now : Int) (c : CellInfo) : Bool :=
  match findCell st0 c.cellId with
  | some e => e.ownerUserId != u && decide (e.lockedUntil ≤ now)
  | none => false

def isGain (st0 : Store) (u : ℕ) (now : Int) (c : CellInfo) : Bool :=
  isCreate st0 c || isTransfer st0 u now c

/-- Previous owner of a transferred cell (only meaningful when a record
exists). -/
def prevOwner (st0 : Store) (c : CellInfo) : ℕ :=
  match findCell st0 c.cellId with
  | some e => e.ownerUserId
  | none => 0

/-- The claim rows the state machine of §4.5 appends for one cell: one
row for create/refresh/transfer, none for a locked skip. -/
def claimsFor (st0 : Store) (u : ℕ) (now : Int) (aid : ℕ) (c : CellInfo) :
    List TerritoryClaim :=
  match findCell st0 c.cellId with
  | none => [⟨c.cellId, c.cellX, c.cellY, u, none, aid, .LOOP_CAPTURE⟩]
  | some e =>
    if e.ownerUserId = u then
      [⟨c.cellId, c.cellX, c.cellY, u, some u, aid, .LOOP_DEFEND_REFRESH⟩]
    else if now < e.lockedUntil then []
    else [⟨c.cellId, c.cellX, c.cellY, u, some e.ownerUserId, aid, .LOOP_CAPTURE⟩]

/-- The Territory Cell record a cell ends up with after its transition. -/
def finalCellState (st0 : Store) (u : ℕ) (now : Int) (aid : ℕ) (c : CellInfo) :
    Option TerritoryCell :=
  match findCell st0 c.cellId with
  | none => some ⟨c.cellId, c.cellX, c.cellY, u, lockedUntilNew now, now, aid⟩
  | some e =>
    if e.ownerUserId = u then some (refreshCell now aid e)
    else if now < e.lockedUntil then some e
    else some (transferCell u now aid e)

/-- The notification rows one run of the post-validation body appends:
everything past the caller's notification table. -/
noncomputable def conquestsEmitted (st : Store) (u : ℕ) (a : Activity) (now : Int)
    (pts poly : List (ℤ × ℤ)) : List Notification :=
  ((applyLoopClaimsRest st u a now pts poly).1.notifications).drop
    st.notifications.length

/-- The rasterized cells one run transfers away from previous owner `o`,
in rasterizer order. -/
noncomputable def ownerLostCells (st0 : Store) (u : ℕ) (now : Int)
    (pts poly : List (ℤ × ℤ)) (o : ℕ) : List CellInfo :=
  (((polygonToCells pts poly).filter (isTransfer st0 u now)).filter
    (fun c => prevOwner st0 c == o))

/-! ### Store-level helper lemmas -/

theorem findCell_eq_none_iff (st : Store) (id : String) :
    findCell st id = none ↔ ∀ c ∈ st.cells, c.cellId ≠ id := by
  unfold findCell
  rw [List.find?_eq_none]
  constructor
  · intro h c hc
    have := h c hc
    simpa using this
  · intro h c hc
    simpa using h c hc

theorem findCell_append_same (st : Store) (row : TerritoryCell) (id : String)
    (hrow : row.cellId = id) (hnone : findCell st id = none) :
    (st.cells ++ [row]).find? (fun c => c.cellId == id) = some row := by
  unfold findCell at hnone
  rw [List.find?_append, hnone]
  simp [hrow]

theorem findCell_append_other (st : Store) (row : TerritoryCell) (id : String)
    (hrow : row.cellId ≠ id) :
    (st.cells ++ [row]).find? (fun c => c.cellId == id) =
      st.cells.find? (fun c => c.cellId == id) := by
  rw [List.find?_append]
  cases h : st.cells.find? (fun c => c.cellId == id)
  · simp [hrow]
  · simp

theorem updateCells_cons (c : TerritoryCell) (cs : List TerritoryCell) (tid : String)
    (f : TerritoryCell → TerritoryCell) :
    updateCells (c :: cs) tid f =
      (if c.cellId == tid then f c else c) :: updateCells cs tid f := rfl

theorem find?_updateCells_same (l : List TerritoryCell) (tid : String)
    (f : TerritoryCell → TerritoryCell) (hf : ∀ c, (f c).cellId = c.cellId) :
    (updateCells l tid f).find? (fun c => c.cellId == tid) =
      (l.find? (fun c => c.cellId == tid)).map f := by
  induction l with
  | nil => rfl
  | cons c cs ih =>
    rw [updateCells_cons]
    by_cases hc : c.cellId = tid
    · have h1 : ((f c).cellId == tid) = true := by simp [hf, hc]
      have h2 : (c.cellId == tid) = true := by simp [hc]
      rw [if_pos h2]
      simp only [List.find?, h1, h2]
      rfl
    · have h1 : (c.cellId == tid) = false := by simp [hc]
      rw [if_neg (by simp [hc] : ¬ (c.cellId == tid) = true)]
      simp only [List.find?, h1]
      exact ih

theorem find?_updateCells_other (l : List TerritoryCell) (tid id : String)
    (f : TerritoryCell → TerritoryCell) (hf : ∀ c, (f c).cellId = c.cellId)
    (hne : id ≠ tid) :
    (updateCells l tid f).find? (fun c => c.cellId == id) =
      l.find? (fun c => c.cellId == id) := by
  induction l with
  | nil => rfl
  | cons c cs ih =>
    rw [updateCells_cons]
    by_cases hc : c.cellId = tid
    · have h1 : ((f c).cellId == id) = false := by
        simp only [hf, hc, beq_eq_false_iff_ne, ne_eq]
        exact fun h => hne h.symm
      have h2 : (c.cellId == id) = false := by
        simp only [hc, beq_eq_false_iff_ne, ne_eq]
        exact fun h => hne h.symm
      rw [if_pos (by simp [hc] : (c.cellId == tid) = true)]
      simp only [List.find?, h1, h2]
      exact ih
    · rw [if_neg (by simp [hc] : ¬ (c.cellId == tid) = true)]
      cases hcid : (c.cellId == id) with
      | true => simp only [List.find?, hcid]
      | false =>
        simp only [List.find?, hcid]
        exact ih

theorem updateCells_map_cellId (l : List TerritoryCell) (tid : String)
    (f : TerritoryCell → TerritoryCell) (hf : ∀ c, (f c).cellId = c.cellId) :
    (updateCells l tid f).map (·.cellId) = l.map (·.cellId) := by
  unfold updateCells
  rw [List.map_map]
  apply List.map_congr_left
  intro c _
  by_cases hc : c.cellId = tid <;> simp [hc, hf]

/-! ### The four transitions of the per-cell loop -/

theorem processCell_create (u : ℕ) (now : Int) (aid : ℕ) (s : LoopState)
    (c : CellInfo) (hsn : findCell s.st c.cellId = none) :
    processCell u now aid s c =
      { s with
        st := { s.st with
          cells := s.st.cells ++
            [⟨c.cellId, c.cellX, c.cellY, u, lockedUntilNew now, now, aid⟩],
          claims := s.st.claims ++
            [⟨c.cellId, c.cellX, c.cellY, u, none, aid, .LOOP_CAPTURE⟩] },
        cellsCreated := s.cellsCreated + 1,
        claimsCreated := s.claimsCreated + 1,
        gainedCellIds := s.gainedCellIds ++ [c.cellId] } := by
  simp only [processCell, hsn]

theorem processCell_refresh (u : ℕ) (now : Int) (aid : ℕ) (s : LoopState)
    (c : CellInfo) (e : TerritoryCell) (hse : findCell s.st c.cellId = some e)
    (he : e.ownerUserId = u) :
    processCell u now aid s c =
      { s with
        st := { s.st with
          cells := updateCells s.st.cells c.cellId (refreshCell now aid),
          claims := s.st.claims ++
            [⟨c.cellId, c.cellX, c.cellY, u, some u, aid, .LOOP_DEFEND_REFRESH⟩] },
        claimsCreated := s.claimsCreated + 1,
        defendedCellIds := s.defendedCellIds ++ [c.cellId] } := by
  simp only [processCell, hse, he, beq_self_eq_true, if_true]

theorem processCell_skip (u : ℕ) (now : Int) (aid : ℕ) (s : LoopState)
    (c : CellInfo) (e : TerritoryCell) (hse : findCell s.st c.cellId = some e)
    (he : ¬ e.ownerUserId = u) (hl : now < e.lockedUntil) :
    processCell u now aid s c = s := by
  have heb : (e.ownerUserId == u) = false := by simp [he]
  simp only [processCell, hse, heb, Bool.false_eq_true, if_false, if_pos hl]

theorem processCell_transfer (u : ℕ) (now : Int) (aid : ℕ) (s : LoopState)
    (c : CellInfo) (e : TerritoryCell) (hse : findCell s.st c.cellId = some e)
    (he : ¬ e.ownerUserId = u) (hl : ¬ now < e.lockedUntil) :
    processCell u now aid s c =
      { s with
        st := { s.st with
          cells := updateCells s.st.cells c.cellId (transferCell u now aid),
          claims := s.st.claims ++
            [⟨c.cellId, c.cellX, c.cellY, u, some e.ownerUserId, aid, .LOOP_CAPTURE⟩] },
        claimsCreated := s.claimsCreated + 1,
        gainedCellIds := s.gainedCellIds ++ [c.cellId],
        lostCellIds := s.lostCellIds ++ [c.cellId],
        lostMap := lostMapAdd s.lostMap e.ownerUserId c.cellId (c.cellX, c.cellY) } := by
  have heb : (e.ownerUserId == u) = false := by simp [he]
  simp only [processCell, hse, heb, Bool.false_eq_true, if_false, if_neg hl]

/-- One step of the per-cell loop, characterized pointwise against any
store `st0` that agrees with the current store on the processed cell. -/
theorem processCell_step (st0 : Store) (u : ℕ) (now : Int) (aid : ℕ)
    (s : LoopState) (c : CellInfo)
    (hagree : findCell s.st c.cellId = findCell st0 c.cellId) :
    (processCell u now aid s c).st.claims =
      s.st.claims ++ claimsFor st0 u now aid c ∧
    (processCell u now aid s c).gainedCellIds =
      s.gainedCellIds ++ (if isGain st0 u now c then [c.cellId] else []) ∧
    (processCell u now aid s c).defendedCellIds =
      s.defendedCellIds ++ (if isRefresh st0 u c then [c.cellId] else []) ∧
    (processCell u now aid s c).lostCellIds =
      s.lostCellIds ++ (if isTransfer st0 u now c then [c.cellId] else []) ∧
    (processCell u now aid s c).cellsCreated =
      s.cellsCreated + (if isCreate st0 c then 1 else 0) ∧
    (processCell u now aid s c).claimsCreated =
      s.claimsCreated + (claimsFor st0 u now aid c).length ∧
    (processCell u now aid s c).lostMap =
      (if isTransfer st0 u now c then
        lostMapAdd s.lostMap (prevOwner st0 c) c.cellId (c.cellX, c.cellY)
      else s.lostMap) ∧
    (processCell u now aid s c).st.activities = s.st.activities ∧
    (processCell u now aid s c).st.notifications = s.st.notifications ∧
    (processCell u now aid s c).st.users = s.st.users ∧
    (processCell u now aid s c).st.friendships = s.st.friendships ∧
    (∀ id, c.cellId ≠ id →
      findCell (processCell u now aid s c).st id = findCell s.st id) ∧
    findCell (processCell u now aid s c).st c.cellId =
      finalCellState st0 u now aid c ∧
    ((s.st.cells.map (·.cellId)).Nodup →
      ((processCell u now aid s c).st.cells.map (·.cellId)).Nodup) := by
  rcases hfc : findCell st0 c.cellId with _ | e
  · -- no record: create
    have hsn : findCell s.st c.cellId = none := by rw [hagree, hfc]
    have hnotin : ∀ x ∈ s.st.cells, x.cellId ≠ c.cellId :=
      (findCell_eq_none_iff _ _).mp hsn
    rw [processCell_create u now aid s c hsn]
    have hcr : isCreate st0 c = true := by simp [isCreate, hfc]
    have hrf : isRefresh st0 u c = false := by simp [isRefresh, hfc]
    have htr : isTransfer st0 u now c = false := by simp [isTransfer, hfc]
    have hg : isGain st0 u now c = true := by simp [isGain, hcr]
    refine ⟨by simp [claimsFor, hfc], by simp [hg], by simp [hrf], by simp [htr],
      by simp [hcr], by simp [claimsFor, hfc], by simp [htr], rfl, rfl, rfl, rfl,
      ?_, ?_, ?_⟩
    · intro id hid
      exact findCell_append_other s.st _ id hid
    · have := findCell_append_same s.st
        ⟨c.cellId, c.cellX, c.cellY, u, lockedUntilNew now, now, aid⟩ c.cellId rfl hsn
      unfold findCell
      rw [this]
      simp [finalCellState, hfc]
    · intro hnd
      show ((s.st.cells ++
        [(⟨c.cellId, c.cellX, c.cellY, u, lockedUntilNew now, now, aid⟩ :
          TerritoryCell)]).map (fun x => TerritoryCell.cellId x)).Nodup
      rw [List.map_append]
      rw [List.nodup_append]
      refine ⟨hnd, by simp, ?_⟩
      intro x hx
      simp only [List.mem_map] at hx
      obtain ⟨y, hy, hxy⟩ := hx
      simp only [List.map_cons, List.map_nil, List.mem_singleton]
      intro hc
      exact hnotin y hy (by rw [hxy, hc])
  · -- record exists
    have hse : findCell s.st c.cellId = some e := by rw [hagree, hfc]
    by_cases he : e.ownerUserId = u
    · -- owned by claimer: refresh
      rw [processCell_refresh u now aid s c e hse he]
      have hcr : isCreate st0 c = false := by simp [isCreate, hfc]
      have hrf : isRefresh st0 u c = true := by simp [isRefresh, hfc, he]
      have htr : isTransfer st0 u now c = false := by simp [isTransfer, hfc, he]
      have hg : isGain st0 u now c = false := by simp [isGain, hcr, htr]
      refine ⟨by simp [claimsFor, hfc, he], by simp [hg], by simp [hrf],
        by simp [htr], by simp [hcr], by simp [claimsFor, hfc, he], by simp [htr],
        rfl, rfl, rfl, rfl, ?_, ?_, ?_⟩
      · intro id hid
        unfold findCell
        exact find?_updateCells_other s.st.cells c.cellId id (refreshCell now aid)
          (fun _ => rfl) (fun h => hid h.symm)
      · unfold findCell
        rw [find?_updateCells_same s.st.cells c.cellId (refreshCell now aid)
          (fun _ => rfl)]
        unfold findCell at hse
        rw [hse]
        simp [finalCellState, hfc, he]
      · intro hnd
        show ((updateCells s.st.cells c.cellId (refreshCell now aid)).map (·.cellId)).Nodup
        rw [updateCells_map_cellId s.st.cells c.cellId (refreshCell now aid)
          (fun _ => rfl)]
        exact hnd
    · by_cases hl : now < e.lockedUntil
      · -- locked by someone else: skip
        rw [processCell_skip u now aid s c e hse he hl]
        have hcr : isCreate st0 c = false := by simp [isCreate, hfc]
        have hrf : isRefresh st0 u c = false := by simp [isRefresh, hfc, he]
        have htr : isTransfer st0 u now c = false := by
          simp [isTransfer, hfc, he, not_le.mpr hl]
        have hg : isGain st0 u now c = false := by simp [isGain, hcr, htr]
        refine ⟨by simp [claimsFor, hfc, he, hl], by simp [hg], by simp [hrf],
          by simp [htr], by simp [hcr], by simp [claimsFor, hfc, he, hl],
          by simp [htr], rfl, rfl, rfl, rfl, fun id _ => rfl, ?_, fun h => h⟩
        rw [hse]
        simp [finalCellState, hfc, he, hl]
      · -- lock expired: transfer
        rw [processCell_transfer u now aid s c e hse he hl]
        have hcr : isCreate st0 c = false := by simp [isCreate, hfc]
        have hrf : isRefresh st0 u c = false := by simp [isRefresh, hfc, he]
        have htr : isTransfer st0 u now c = true := by
          simp [isTransfer, hfc, he, not_lt.mp hl]
        have hg : isGain st0 u now c = true := by simp [isGain, htr]
        have hpo : prevOwner st0 c = e.ownerUserId := by simp [prevOwner, hfc]
        refine ⟨by simp [claimsFor, hfc, he, hl], by simp [hg], by simp [hrf],
          by simp [htr], by simp [hcr], by simp [claimsFor, hfc, he, hl],
          by simp [htr, hpo], rfl, rfl, rfl, rfl, ?_, ?_, ?_⟩
        · intro id hid
          unfold findCell
          exact find?_updateCells_other s.st.cells c.cellId id (transferCell u now aid)
            (fun _ => rfl) (fun h => hid h.symm)
        · unfold findCell
          rw [find?_updateCells_same s.st.cells c.cellId (transferCell u now aid)
            (fun _ => rfl)]
          unfold findCell at hse
          rw [hse]
          simp [finalCellState, hfc, he, hl]
        · intro hnd
          show ((updateCells s.st.cells c.cellId (transferCell u now aid)).map (·.cellId)).Nodup
          rw [updateCells_map_cellId s.st.cells c.cellId (transferCell u now aid)
            (fun _ => rfl)]
          exact hnd

/-- The per-cell loop over a duplicate-free cell list, characterized
pointwise against the store `st0` the loop started from: each cell's
transition is decided by `st0` alone, claims are appended in cell order,
and untouched tables and cells are preserved. -/
theorem processCells_foldl (st0 : Store) (u : ℕ) (now : Int) (aid : ℕ) :
    ∀ (cs : List CellInfo) (s : LoopState),
      (cs.map (·.cellId)).Nodup →
      (∀ c ∈ cs, findCell s.st c.cellId = findCell st0 c.cellId) →
      (cs.foldl (processCell u now aid) s).st.claims =
        s.st.claims ++ cs.flatMap (claimsFor st0 u now aid) ∧
      (cs.foldl (processCell u now aid) s).gainedCellIds =
        s.gainedCellIds ++ (cs.filter (isGain st0 u now)).map (·.cellId) ∧
      (cs.foldl (processCell u now aid) s).defendedCellIds =
        s.defendedCellIds ++ (cs.filter (isRefresh st0 u)).map (·.cellId) ∧
      (cs.foldl (processCell u now aid) s).lostCellIds =
        s.lostCellIds ++ (cs.filter (isTransfer st0 u now)).map (·.cellId) ∧
      (cs.foldl (processCell u now aid) s).cellsCreated =
        s.cellsCreated + (cs.filter (isCreate st0)).length ∧
      (cs.foldl (processCell u now aid) s).claimsCreated =
        s.claimsCreated + (cs.flatMap (claimsFor st0 u now aid)).length ∧
      (cs.foldl (processCell u now aid) s).lostMap =
        (cs.filter (isTransfer st0 u now)).foldl
          (fun m c => lostMapAdd m (prevOwner st0 c) c.cellId (c.cellX, c.cellY))
          s.lostMap ∧
      (cs.foldl (processCell u now aid) s).st.activities = s.st.activities ∧
      (cs.foldl (processCell u now aid) s).st.notifications = s.st.notifications ∧
      (cs.foldl (processCell u now aid) s).st.users = s.st.users ∧
      (cs.foldl (processCell u now aid) s).st.friendships = s.st.friendships ∧
      (∀ id, (∀ c ∈ cs, c.cellId ≠ id) →
        findCell (cs.foldl (processCell u now aid) s).st id = findCell s.st id) ∧
      (∀ c ∈ cs, findCell (cs.foldl (processCell u now aid) s).st c.cellId =
        finalCellState st0 u now aid c) ∧
      ((s.st.cells.map (·.cellId)).Nodup →
        (((cs.foldl (processCell u now aid) s).st.cells.map (·.cellId)).Nodup)) := by
  intro cs
  induction cs with
  | nil =>
    intro s _ _
    refine ⟨by simp, by simp, by simp, by simp, by simp, by simp, by simp,
      rfl, rfl, rfl, rfl, fun id _ => rfl, fun c hc => absurd hc (by simp),
      fun h => h⟩
  | cons c cs ih =>
    intro s hnd hag
    have hnd' : c.cellId ∉ cs.map (·.cellId) ∧ ((cs.map (·.cellId)).Nodup) := by
      simpa [List.nodup_cons] using hnd
    have hagc : findCell s.st c.cellId = findCell st0 c.cellId := hag c (.head _)
    obtain ⟨h1, h2, h3, h4, h5, h6, h7, h8, h9, h10, h11, h12, h13, h14⟩ :=
      processCell_step st0 u now aid s c hagc
    have hag' : ∀ c' ∈ cs,
        findCell (processCell u now aid s c).st c'.cellId = findCell st0 c'.cellId := by
      intro c' hc'
      have hne : c.cellId ≠ c'.cellId := by
        intro h
        exact hnd'.1 (h ▸ List.mem_map_of_mem _ hc')
      rw [h12 c'.cellId hne]
      exact hag c' (.tail _ hc')
    obtain ⟨g1, g2, g3, g4, g5, g6, g7, g8, g9, g10, g11, g12, g13, g14⟩ :=
      ih (processCell u now aid s c) hnd'.2 hag'
    rw [List.foldl_cons]
    refine ⟨?_, ?_, ?_, ?_, ?_, ?_, ?_, ?_, ?_, ?_, ?_, ?_, ?_, ?_⟩
    · rw [g1, h1, List.flatMap_cons, List.append_assoc]
    · rw [g2, h2, List.filter_cons]
      by_cases hb : isGain st0 u now c
      · simp [hb, List.append_assoc]
      · simp [hb]
    · rw [g3, h3, List.filter_cons]
      by_cases hb : isRefresh st0 u c
      · simp [hb, List.append_assoc]
      · simp [hb]
    · rw [g4, h4, List.filter_cons]
      by_cases hb : isTransfer st0 u now c
      · simp [hb, List.append_assoc]
      · simp [hb]
    · rw [g5, h5, List.filter_cons]
      by_cases hb : isCreate st0 c
      · simp [hb, Nat.add_assoc, Nat.add_comm 1]
      · simp [hb]
    · rw [g6, h6, List.flatMap_cons, List.length_append, Nat.add_assoc]
    · rw [g7, h7, List.filter_cons]
      by_cases hb : isTransfer st0 u now c
      · simp [hb]
      · simp [hb]
    · rw [g8, h8]
    · rw [g9, h9]
    · rw [g10, h10]
    · rw [g11, h11]
    · intro id hall
      rw [g12 id (fun c' hc' => hall c' (.tail _ hc')), h12 id (hall c (.head _))]
    · intro c' hc'
      rcases List.mem_cons.mp hc' with hc' | hc'
      · subst hc'
        rw [g12 c'.cellId, h13]
        intro c2 hc2 h
        exact hnd'.1 (h ▸ List.mem_map_of_mem _ hc2)
      · exact g13 c' hc'
    · intro hwf
      exact g14 (h14 hwf)

/-! ### The rasterizer emits no duplicate cell keys -/

theorem rasterScan_foldl_nodup (polygon : List (ℝ × ℝ)) :
    ∀ (candidates : List (ℤ × ℤ)) (acc : List String × List CellInfo),
      (acc.2.map (·.cellId)).Nodup →
      (∀ id, id ∈ acc.2.map (·.cellId) ↔ acc.1.contains id = true) →
      (((candidates.foldl (rasterStep polygon) acc).2.map (·.cellId)).Nodup) := by
  intro candidates
  induction candidates with
  | nil => intro acc hnd _; exact hnd
  | cons c cands ih =>
    intro acc hnd hiff
    rw [List.foldl_cons]
    unfold rasterStep
    by_cases hpip : pointInPolygon (((c.1 : ℝ) + 0.5) * CELL_SIZE_METERS)
        (((c.2 : ℝ) + 0.5) * CELL_SIZE_METERS) polygon
    · simp only [hpip, if_true]
      by_cases hseen : acc.1.contains (getCellId c.1 c.2)
      · simp only [hseen, if_true]
        exact ih acc hnd hiff
      · simp only [hseen, Bool.false_eq_true, if_false]
        refine ih _ ?_ ?_
        · simp only [List.map_append, List.map_cons, List.map_nil]
          rw [List.nodup_append]
          refine ⟨hnd, by simp, ?_⟩
          intro x hx
          simp only [List.map_cons, List.map_nil, List.mem_singleton]
          intro hxid
          rw [hxid] at hx
          exact hseen ((hiff _).mp hx)
        · intro id
          rw [List.map_append]
          constructor
          · intro h
            rcases List.mem_append.mp h with h' | h'
            · have hc := (hiff id).mp h'
              have : id ∈ acc.1 := List.elem_iff.mp hc
              simp [List.contains_cons, this]
            · have hid : id = getCellId c.1 c.2 := by simpa using h'
              simp [List.contains_cons, hid]
          · intro h
            rcases (by simpa [List.contains_cons, Bool.or_eq_true, beq_iff_eq] using h :
                id = getCellId c.1 c.2 ∨ acc.1.contains id = true) with h' | h'
            · exact List.mem_append.mpr (Or.inr (by simp [h']))
            · exact List.mem_append.mpr (Or.inl ((hiff id).mpr h'))
    · simp only [hpip, Bool.false_eq_true, if_false]
      exact ih acc hnd hiff

/-- The output of `polygonToCells` has pairwise distinct cell keys. -/
theorem polygonToCells_nodup (pts poly : List (ℤ × ℤ)) :
    ((polygonToCells pts poly).map (·.cellId)).Nodup := by
  unfold polygonToCells rasterScan
  split
  · simp
  · dsimp only
    split
    · simp
    · exact rasterScan_foldl_nodup _ _ ([], []) (by simp) (by simp)

/-! ### The conquest notification block only appends notifications -/

theorem conquestAppend_foldl (st : Store) (claimerId : ℕ) (nick : Option String) :
    ∀ (es : List (ℕ × List String × List (ℤ × ℤ))) (acc : Store),
      (es.foldl (conquestAppend st claimerId nick) acc).cells = acc.cells ∧
      (es.foldl (conquestAppend st claimerId nick) acc).claims = acc.claims ∧
      (es.foldl (conquestAppend st claimerId nick) acc).activities = acc.activities ∧
      (es.foldl (conquestAppend st claimerId nick) acc).users = acc.users ∧
      (es.foldl (conquestAppend st claimerId nick) acc).friendships = acc.friendships ∧
      (es.foldl (conquestAppend st claimerId nick) acc).notifications =
        acc.notifications ++ es.map (fun e =>
          conquestNotification st claimerId nick e.1 e.2.1 e.2.2) := by
  intro es
  induction es with
  | nil => intro acc; exact ⟨rfl, rfl, rfl, rfl, rfl, by simp⟩
  | cons e es ih =>
    intro acc
    rw [List.foldl_cons]
    obtain ⟨k1, k2, k3, k4, k5, k6⟩ := ih (conquestAppend st claimerId nick acc e)
    exact ⟨k1, k2, k3, k4, k5, by rw [k6]; simp [conquestAppend]⟩

theorem emitConquest_spec (st : Store) (claimerId : ℕ)
    (entries : List (ℕ × List String × List (ℤ × ℤ))) :
    (emitConquest st claimerId entries).cells = st.cells ∧
    (emitConquest st claimerId entries).claims = st.claims ∧
    (emitConquest st claimerId entries).activities = st.activities ∧
    (emitConquest st claimerId entries).users = st.users ∧
    (emitConquest st claimerId entries).friendships = st.friendships ∧
    (emitConquest st claimerId entries).notifications =
      st.notifications ++ entries.map (fun e =>
        conquestNotification st claimerId ((findUser st claimerId).bind (·.nickname))
          e.1 e.2.1 e.2.2) := by
  unfold emitConquest
  split
  · rename_i hemp
    rw [List.isEmpty_iff] at hemp
    subst hemp
    exact ⟨rfl, rfl, rfl, rfl, rfl, by simp⟩
  · exact conquestAppend_foldl st claimerId _ entries st

theorem conquestNotification_congr (st1 st2 : Store)
    (hfr : st1.friendships = st2.friendships) (cid : ℕ) (nick : Option String)
    (o : ℕ) (ids : List String) (coords : List (ℤ × ℤ)) :
    conquestNotification st1 cid nick o ids coords =
      conquestNotification st2 cid nick o ids coords := by
  unfold conquestNotification friendshipExists
  rw [hfr]

/-- The post-validation body of `applyLoopClaims`, fully characterized
against the store `st` it starts from: claims appended per the state
machine, the loop cache written exactly when the rasterizer produced at
least one cell, one conquest notification per `lostByPreviousOwner`
entry, result lists classified pointwise, and all other state
untouched. -/
theorem applyLoopClaimsRest_spec (st : Store) (u : ℕ) (a : Activity) (now : Int)
    (pts poly : List (ℤ × ℤ)) :
    (applyLoopClaimsRest st u a now pts poly).1.claims =
      st.claims ++ (polygonToCells pts poly).flatMap (claimsFor st u now a.id) ∧
    (applyLoopClaimsRest st u a now pts poly).1.activities =
      (if (polygonToCells pts poly).length > 0 then
        setLoopCache st.activities a.id (loopCacheOf poly)
      else st.activities) ∧
    (applyLoopClaimsRest st u a now pts poly).1.users = st.users ∧
    (applyLoopClaimsRest st u a now pts poly).1.friendships = st.friendships ∧
    (applyLoopClaimsRest st u a now pts poly).1.notifications =
      st.notifications ++
        (((polygonToCells pts poly).filter (isTransfer st u now)).foldl
          (fun m c => lostMapAdd m (prevOwner st c) c.cellId (c.cellX, c.cellY))
          []).map (fun e =>
            conquestNotification st u ((findUser st u).bind (·.nickname))
              e.1 e.2.1 e.2.2) ∧
    (∀ id, (∀ c ∈ polygonToCells pts poly, c.cellId ≠ id) →
      findCell (applyLoopClaimsRest st u a now pts poly).1 id = findCell st id) ∧
    (∀ c ∈ polygonToCells pts poly,
      findCell (applyLoopClaimsRest st u a now pts poly).1 c.cellId =
        finalCellState st u now a.id c) ∧
    ((st.cells.map (·.cellId)).Nodup →
      ((applyLoopClaimsRest st u a now pts poly).1.cells.map (·.cellId)).Nodup) ∧
    (applyLoopClaimsRest st u a now pts poly).2.gainedCellIds =
      ((polygonToCells pts poly).filter (isGain st u now)).map (·.cellId) ∧
    (applyLoopClaimsRest st u a now pts poly).2.defendedCellIds =
      ((polygonToCells pts poly).filter (isRefresh st u)).map (·.cellId) ∧
    (applyLoopClaimsRest st u a now pts poly).2.lostCellIds =
      ((polygonToCells pts poly).filter (isTransfer st u now)).map (·.cellId) ∧
    (applyLoopClaimsRest st u a now pts poly).2.cellsCreated =
      ((polygonToCells pts poly).filter (isCreate st)).length ∧
    (applyLoopClaimsRest st u a now pts poly).2.claimsCreated =
      ((polygonToCells pts poly).flatMap (claimsFor st u now a.id)).length ∧
    (applyLoopClaimsRest st u a now pts poly).2.loopPolygonGeojson =
      (if (polygonToCells pts poly).length > 0 then some poly else none) := by
  have heq : applyLoopClaimsRest st u a now pts poly =
      (emitConquest
        ((polygonToCells pts poly).foldl (processCell u now a.id)
          ⟨if (polygonToCells pts poly).length > 0 then
            { st with activities := setLoopCache st.activities a.id (loopCacheOf poly) }
          else st, [], [], [], 0, 0, []⟩).st u
        ((polygonToCells pts poly).foldl (processCell u now a.id)
          ⟨if (polygonToCells pts poly).length > 0 then
            { st with activities := setLoopCache st.activities a.id (loopCacheOf poly) }
          else st, [], [], [], 0, 0, []⟩).lostMap,
       ⟨((polygonToCells pts poly).foldl (processCell u now a.id)
          ⟨if (polygonToCells pts poly).length > 0 then
            { st with activities := setLoopCache st.activities a.id (loopCacheOf poly) }
          else st, [], [], [], 0, 0, []⟩).gainedCellIds,
        ((polygonToCells pts poly).foldl (processCell u now a.id)
          ⟨if (polygonToCells pts poly).length > 0 then
            { st with activities := setLoopCache st.activities a.id (loopCacheOf poly) }
          else st, [], [], [], 0, 0, []⟩).lostCellIds,
        ((polygonToCells pts poly).foldl (processCell u now a.id)
          ⟨if (polygonToCells pts poly).length > 0 then
            { st with activities := setLoopCache st.activities a.id (loopCacheOf poly) }
          else st, [], [], [], 0, 0, []⟩).defendedCellIds,
        ((polygonToCells pts poly).foldl (processCell u now a.id)
          ⟨if (polygonToCells pts poly).length > 0 then
            { st with activities := setLoopCache st.activities a.id (loopCacheOf poly) }
          else st, [], [], [], 0, 0, []⟩).cellsCreated,
        ((polygonToCells pts poly).foldl (processCell u now a.id)
          ⟨if (polygonToCells pts poly).length > 0 then
            { st with activities := setLoopCache st.activities a.id (loopCacheOf poly) }
          else st, [], [], [], 0, 0, []⟩).claimsCreated,
        if (polygonToCells pts poly).length > 0 then some poly else none⟩) := rfl
  set cells := polygonToCells pts poly with hcells
  set st1 : Store := if cells.length > 0 then
      { st with activities := setLoopCache st.activities a.id (loopCacheOf poly) }
    else st with hst1
  have hst1cells : st1.cells = st.cells := by
    rw [hst1]; split <;> rfl
  have hst1claims : st1.claims = st.claims := by
    rw [hst1]; split <;> rfl
  have hst1users : st1.users = st.users := by
    rw [hst1]; split <;> rfl
  have hst1friend : st1.friendships = st.friendships := by
    rw [hst1]; split <;> rfl
  have hst1notif : st1.notifications = st.notifications := by
    rw [hst1]; split <;> rfl
  have hst1acts : st1.activities =
      (if cells.length > 0 then setLoopCache st.activities a.id (loopCacheOf poly)
       else st.activities) := by
    rw [hst1]; split <;> rfl
  have hfind1 : ∀ id, findCell st1 id = findCell st id := by
    intro id
    unfold findCell
    rw [hst1cells]
  obtain ⟨m1, m2, m3, m4, m5, m6, m7, m8, m9, m10, m11, m12, m13, m14⟩ :=
    processCells_foldl st u now a.id cells
      (⟨st1, [], [], [], 0, 0, []⟩ : LoopState)
      (polygonToCells_nodup pts poly) (fun c _ => hfind1 c.cellId)
  set fin := cells.foldl (processCell u now a.id)
    (⟨st1, [], [], [], 0, 0, []⟩ : LoopState) with hfin
  obtain ⟨e1, e2, e3, e4, e5, e6⟩ := emitConquest_spec fin.st u fin.lostMap
  have husers : fin.st.users = st.users := by rw [m10]; exact hst1users
  have hfriend : fin.st.friendships = st.friendships := by rw [m11]; exact hst1friend
  refine ⟨?_, ?_, ?_, ?_, ?_, ?_, ?_, ?_, ?_, ?_, ?_, ?_, ?_, ?_⟩
  · rw [heq]
    show (emitConquest fin.st u fin.lostMap).claims = _
    rw [e2, m1, hst1claims]
  · rw [heq]
    show (emitConquest fin.st u fin.lostMap).activities = _
    rw [e3, m8]
    exact hst1acts
  · rw [heq]
    show (emitConquest fin.st u fin.lostMap).users = _
    rw [e4]
    exact husers
  · rw [heq]
    show (emitConquest fin.st u fin.lostMap).friendships = _
    rw [e5]
    exact hfriend
  · rw [heq]
    show (emitConquest fin.st u fin.lostMap).notifications = _
    rw [e6, m9, hst1notif, m7]
    congr 1
    · apply List.map_congr_left
      intro e _
      rw [conquestNotification_congr fin.st st hfriend]
      congr 2
      unfold findUser
      rw [husers]
  · intro id hall
    rw [heq]
    show findCell (emitConquest fin.st u fin.lostMap) id = _
    unfold findCell
    rw [e1]
    have := m12 id hall
    unfold findCell at this
    rw [this, hst1cells]
  · intro c hc
    rw [heq]
    show findCell (emitConquest fin.st u fin.lostMap) c.cellId = _
    unfold findCell
    rw [e1]
    have := m13 c hc
    unfold findCell at this
    rw [this]
  · intro hwf
    rw [heq]
    show ((emitConquest fin.st u fin.lostMap).cells.map (·.cellId)).Nodup
    rw [e1]
    exact m14 (by rw [hst1cells]; exact hwf)
  · rw [heq]
    show fin.gainedCellIds = _
    rw [m2]
    simp
  · rw [heq]
    show fin.defendedCellIds = _
    rw [m3]
    simp
  · rw [heq]
    show fin.lostCellIds = _
    rw [m4]
    simp
  · rw [heq]
    show fin.cellsCreated = _
    rw [m5]
    simp
  · rw [heq]
    show fin.claimsCreated = _
    rw [m6]
    simp
  · rw [heq]

/-- Every run of `applyLoopClaims` either stops at a validation gate
with the store untouched and the zero result, or runs the full body on
the decoded points and cleaned ring. -/
theorem applyLoopClaims_eq_cases (st : Store) (u : ℕ) (a : Activity) (now : Int) :
    applyLoopClaims st u a now = (st, zeroResult) ∨
    ∃ s poly, a.summaryPolyline = some s ∧
      cleanPolygonPoints (decodePolyline s) = some poly ∧
      applyLoopClaims st u a now =
        applyLoopClaimsRest st u a now (decodePolyline s) poly := by
  rcases hp : a.summaryPolyline with _ | s
  · left
    unfold applyLoopClaims
    rw [hp]
  · cases he : s.isEmpty
    · rcases hc : cleanPolygonPoints (decodePolyline s) with _ | poly
      · left
        unfold applyLoopClaims
        rw [hp]
        simp only [he, Bool.false_eq_true, if_false]
        rw [hc]
      · by_cases hd : LOOP_CLOSE_METERS <
            distanceMeters ((pointsToMercator (decodePolyline s)).headD (0, 0))
              ((pointsToMercator (decodePolyline s)).getLastD (0, 0))
        · left
          unfold applyLoopClaims
          rw [hp]
          simp only [he, Bool.false_eq_true, if_false]
          rw [hc]
          simp only [if_pos hd]
        · right
          refine ⟨s, poly, rfl, hc, ?_⟩
          unfold applyLoopClaims
          rw [hp]
          simp only [he, Bool.false_eq_true, if_false]
          rw [hc]
          simp only [if_neg hd]
    · left
      unfold applyLoopClaims
      rw [hp]
      simp only [he, if_true]

/-! ## C1: the four-way ownership state machine -/

/-- C1: against the stored Territory Cell, each rasterized cell takes
exactly one of four transitions — create (no record: new cell owned by
the claimer, locked for 12 h, one `LOOP_CAPTURE` claim with no previous
owner), refresh (owned by the claimer: lock renewed, one
`LOOP_DEFEND_REFRESH` claim), transfer (other owner, lock expired:
ownership moves to the claimer, one `LOOP_CAPTURE` claim recording the
previous owner), or skip (other owner, still locked: nothing happens) —
and over a whole run the claims appended are precisely one row per
non-skip transition. -/
theorem C1_state_machine :
    (∀ (u : ℕ) (now : Int) (aid : ℕ) (s : LoopState) (c : CellInfo),
      findCell s.st c.cellId = none →
      processCell u now aid s c =
        { s with
          st := { s.st with
            cells := s.st.cells ++
              [⟨c.cellId, c.cellX, c.cellY, u, lockedUntilNew now, now, aid⟩],
            claims := s.st.claims ++
              [⟨c.cellId, c.cellX, c.cellY, u, none, aid, .LOOP_CAPTURE⟩] },
          cellsCreated := s.cellsCreated + 1,
          claimsCreated := s.claimsCreated + 1,
          gainedCellIds := s.gainedCellIds ++ [c.cellId] }) ∧
    (∀ (u : ℕ) (now : Int) (aid : ℕ) (s : LoopState) (c : CellInfo)
        (e : TerritoryCell),
      findCell s.st c.cellId = some e → e.ownerUserId = u →
      processCell u now aid s c =
        { s with
          st := { s.st with
            cells := updateCells s.st.cells c.cellId (refreshCell now aid),
            claims := s.st.claims ++
              [⟨c.cellId, c.cellX, c.cellY, u, some u, aid, .LOOP_DEFEND_REFRESH⟩] },
          claimsCreated := s.claimsCreated + 1,
          defendedCellIds := s.defendedCellIds ++ [c.cellId] }) ∧
    (∀ (u : ℕ) (now : Int) (aid : ℕ) (s : LoopState) (c : CellInfo)
        (e : TerritoryCell),
      findCell s.st c.cellId = some e → ¬ e.ownerUserId = u →
      ¬ now < e.lockedUntil →
      processCell u now aid s c =
        { s with
          st := { s.st with
            cells := updateCells s.st.cells c.cellId (transferCell u now aid),
            claims := s.st.claims ++
              [⟨c.cellId, c.cellX, c.cellY, u, some e.ownerUserId, aid,
                .LOOP_CAPTURE⟩] },
          claimsCreated := s.claimsCreated + 1,
          gainedCellIds := s.gainedCellIds ++ [c.cellId],
          lostCellIds := s.lostCellIds ++ [c.cellId],
          lostMap := lostMapAdd s.lostMap e.ownerUserId c.cellId
            (c.cellX, c.cellY) }) ∧
    (∀ (u : ℕ) (now : Int) (aid : ℕ) (s : LoopState) (c : CellInfo)
        (e : TerritoryCell),
      findCell s.st c.cellId = some e → ¬ e.ownerUserId = u →
      now < e.lockedUntil →
      processCell u now aid s c = s) ∧
    (∀ (st : Store) (u : ℕ) (a : Activity) (now : Int) (pts poly : List (ℤ × ℤ)),
      (applyLoopClaimsRest st u a now pts poly).1.claims =
        st.claims ++ (polygonToCells pts poly).flatMap (claimsFor st u now a.id)) ∧
    (∀ (st0 : Store) (u : ℕ) (now : Int) (aid : ℕ) (c : CellInfo),
      (claimsFor st0 u now aid c).length =
        if isLockedSkip st0 u now c then 0 else 1) := by
  refine ⟨processCell_create, processCell_refresh, processCell_transfer,
    processCell_skip, ?_, ?_⟩
  · intro st u a now pts poly
    exact (applyLoopClaimsRest_spec st u a now pts poly).1
  · intro st0 u now aid c
    unfold claimsFor isLockedSkip
    rcases hfc : findCell st0 c.cellId with _ | e
    · simp
    · by_cases he : e.ownerUserId = u
      · simp [he]
      · by_cases hl : now < e.lockedUntil
        · simp [he, hl]
        · simp [he, hl]

/-- Witness for C1: the four transitions taken at concrete stores
(no record; owned by user 1; owned by user 2 with expired lock; owned
by user 2 and still locked). -/
theorem C1_witness :
    processCell 1 0 9 ⟨⟨[], [], [], [], [], []⟩, [], [], [], 0, 0, []⟩ ⟨"0:0", 0, 0⟩ =
      ⟨⟨[⟨"0:0", 0, 0, 1, 43200000, 0, 9⟩],
        [⟨"0:0", 0, 0, 1, none, 9, .LOOP_CAPTURE⟩], [], [], [], []⟩,
       ["0:0"], [], [], 1, 1, []⟩ ∧
    processCell 1 0 9
        ⟨⟨[⟨"0:0", 0, 0, 1, 50, -7, 8⟩], [], [], [], [], []⟩, [], [], [], 0, 0, []⟩
        ⟨"0:0", 0, 0⟩ =
      ⟨⟨[⟨"0:0", 0, 0, 1, 43200000, 0, 9⟩],
        [⟨"0:0", 0, 0, 1, some 1, 9, .LOOP_DEFEND_REFRESH⟩], [], [], [], []⟩,
       [], [], ["0:0"], 0, 1, []⟩ ∧
    processCell 1 0 9
        ⟨⟨[⟨"0:0", 0, 0, 2, -5, -7, 8⟩], [], [], [], [], []⟩, [], [], [], 0, 0, []⟩
        ⟨"0:0", 0, 0⟩ =
      ⟨⟨[⟨"0:0", 0, 0, 1, 43200000, 0, 9⟩],
        [⟨"0:0", 0, 0, 1, some 2, 9, .LOOP_CAPTURE⟩], [], [], [], []⟩,
       ["0:0"], ["0:0"], [], 0, 1, [(2, ["0:0"], [(0, 0)])]⟩ ∧
    processCell 1 0 9
        ⟨⟨[⟨"0:0", 0, 0, 2, 99, -7, 8⟩], [], [], [], [], []⟩, [], [], [], 0, 0, []⟩
        ⟨"0:0", 0, 0⟩ =
      ⟨⟨[⟨"0:0", 0, 0, 2, 99, -7, 8⟩], [], [], [], [], []⟩, [], [], [], 0, 0, []⟩ := by
  refine ⟨?_, ?_, ?_, ?_⟩
  · rw [C1_state_machine.1 1 0 9 _ _ (by decide)]
    rfl
  · rw [C1_state_machine.2.1 1 0 9 _ _ ⟨"0:0", 0, 0, 1, 50, -7, 8⟩ (by decide) rfl]
    rfl
  · rw [C1_state_machine.2.2.1 1 0 9 _ _ ⟨"0:0", 0, 0, 2, -5, -7, 8⟩ (by decide)
      (by decide) (by decide)]
    rfl
  · exact C1_state_machine.2.2.2.1 1 0 9 _ _ ⟨"0:0", 0, 0, 2, 99, -7, 8⟩ (by decide)
      (by decide) (by decide)

/-! ## C2: locks protect ownership -/

theorem claimsFor_cellId (st0 : Store) (u : ℕ) (now : Int) (aid : ℕ)
    (c : CellInfo) : ∀ cl ∈ claimsFor st0 u now aid c, cl.cellId = c.cellId := by
  unfold claimsFor
  rcases findCell st0 c.cellId with _ | e
  · simp
  · by_cases he : e.ownerUserId = u
    · simp [he]
    · by_cases hl : now < e.lockedUntil <;> simp [he, hl]

theorem claimsFor_locked_nil (st0 : Store) (u : ℕ) (now : Int) (aid : ℕ)
    (c : CellInfo) (e : TerritoryCell) (hse : findCell st0 c.cellId = some e)
    (he : ¬ e.ownerUserId = u) (hl : now < e.lockedUntil) :
    claimsFor st0 u now aid c = [] := by
  unfold claimsFor
  rw [hse]
  simp [he, hl]

/-- C2: a Territory Cell record carries exactly one owner, and the
engine never takes a cell from a different owner while its lock is
live: the locked-skip step leaves the whole state untouched; after
expiry the step does transfer ownership; at the level of a full
`applyLoopClaims` run a cell locked against the claimer keeps its exact
record and gains no claim row; and a store with one record per cell key
keeps that uniqueness. -/
theorem C2_lock_protects_ownership :
    (∀ (u : ℕ) (now : Int) (aid : ℕ) (s : LoopState) (c : CellInfo)
        (e : TerritoryCell),
      findCell s.st c.cellId = some e → ¬ e.ownerUserId = u →
      now < e.lockedUntil →
      processCell u now aid s c = s) ∧
    (∀ (u : ℕ) (now : Int) (aid : ℕ) (s : LoopState) (c : CellInfo)
        (e : TerritoryCell),
      findCell s.st c.cellId = some e → ¬ e.ownerUserId = u →
      ¬ now < e.lockedUntil →
      findCell (processCell u now aid s c).st c.cellId =
        some (transferCell u now aid e)) ∧
    (∀ (st : Store) (u : ℕ) (a : Activity) (now : Int) (id : String)
        (e : TerritoryCell),
      findCell st id = some e → ¬ e.ownerUserId = u → now < e.lockedUntil →
      findCell (applyLoopClaims st u a now).1 id = some e ∧
      (applyLoopClaims st u a now).1.claims.filter (fun cl => cl.cellId == id) =
        st.claims.filter (fun cl => cl.cellId == id)) ∧
    (∀ (st : Store) (u : ℕ) (a : Activity) (now : Int),
      (st.cells.map (·.cellId)).Nodup →
      (((applyLoopClaims st u a now).1.cells.map (·.cellId)).Nodup)) := by
  refine ⟨processCell_skip, ?_, ?_, ?_⟩
  · intro u now aid s c e hse he hl
    rw [processCell_transfer u now aid s c e hse he hl]
    show (updateCells s.st.cells c.cellId (transferCell u now aid)).find? _ = _
    rw [find?_updateCells_same s.st.cells c.cellId (transferCell u now aid)
      (fun _ => rfl)]
    unfold findCell at hse
    rw [hse]
    rfl
  · intro st u a now id e hse he hl
    rcases applyLoopClaims_eq_cases st u a now with h | ⟨s, poly, _, _, h⟩
    · rw [h]
      exact ⟨hse, rfl⟩
    · rw [h]
      obtain ⟨m1, _, _, _, _, m6, m7, _⟩ :=
        applyLoopClaimsRest_spec st u a now (decodePolyline s) poly
      constructor
      · by_cases hex : ∃ c ∈ polygonToCells (decodePolyline s) poly, c.cellId = id
        · obtain ⟨c, hcm, hcid⟩ := hex
          have := m7 c hcm
          rw [hcid] at this
          rw [this]
          unfold finalCellState
          rw [hcid, hse]
          simp [he, hl]
        · push_neg at hex
          rw [m6 id hex, hse]
      · rw [m1, List.filter_append]
        have hnil : ((polygonToCells (decodePolyline s) poly).flatMap
            (claimsFor st u now a.id)).filter (fun cl => cl.cellId == id) = [] := by
          rw [List.filter_eq_nil_iff]
          intro cl hcl
          obtain ⟨c, hcm, hclc⟩ := List.mem_flatMap.mp hcl
          intro hbeq
          have hid : cl.cellId = id := by simpa using hbeq
          have hcid : c.cellId = id := (claimsFor_cellId st u now a.id c cl hclc) ▸ hid
          rw [claimsFor_locked_nil st u now a.id c e (by rw [hcid]; exact hse) he hl]
            at hclc
          exact absurd hclc (by simp)
        rw [hnil, List.append_nil]
  · intro st u a now hwf
    rcases applyLoopClaims_eq_cases st u a now with h | ⟨s, poly, _, _, h⟩
    · rw [h]
      exact hwf
    · rw [h]
      exact (applyLoopClaimsRest_spec st u a now (decodePolyline s) poly).2.2.2.2.2.2.2.1
        hwf

/-- Witness for C2: user 1 meets a cell owned by user 2 and locked
until time 100 at time 5 (everything untouched, no claim row), the same
cell with the lock expired (ownership transfers), and a full run over a
store with one record per key. -/
theorem C2_witness :
    processCell 1 5 9
        ⟨⟨[⟨"0:0", 0, 0, 2, 100, 0, 8⟩], [], [], [], [], []⟩, [], [], [], 0, 0, []⟩
        ⟨"0:0", 0, 0⟩ =
      ⟨⟨[⟨"0:0", 0, 0, 2, 100, 0, 8⟩], [], [], [], [], []⟩, [], [], [], 0, 0, []⟩ ∧
    findCell (processCell 1 200 9
        ⟨⟨[⟨"0:0", 0, 0, 2, 100, 0, 8⟩], [], [], [], [], []⟩, [], [], [], 0, 0, []⟩
        ⟨"0:0", 0, 0⟩).st "0:0" = some ⟨"0:0", 0, 0, 1, 200 + 43200000, 200, 9⟩ ∧
    (findCell (applyLoopClaims ⟨[⟨"0:0", 0, 0, 2, 100, 0, 8⟩], [], [], [], [], []⟩ 1
        ⟨1, some "???_ibE_ibE?~hbE~hbE", none⟩ 5).1 "0:0" =
      some ⟨"0:0", 0, 0, 2, 100, 0, 8⟩ ∧
      (applyLoopClaims ⟨[⟨"0:0", 0, 0, 2, 100, 0, 8⟩], [], [], [], [], []⟩ 1
        ⟨1, some "???_ibE_ibE?~hbE~hbE", none⟩ 5).1.claims.filter
          (fun cl => cl.cellId == "0:0") = [].filter (fun cl => cl.cellId == "0:0")) ∧
    ((applyLoopClaims ⟨[⟨"0:0", 0, 0, 2, 100, 0, 8⟩], [], [], [], [], []⟩ 1
        ⟨1, some "???_ibE_ibE?~hbE~hbE", none⟩ 5).1.cells.map (·.cellId)).Nodup := by
  refine ⟨C2_lock_protects_ownership.1 1 5 9 _ _ ⟨"0:0", 0, 0, 2, 100, 0, 8⟩
      (by decide) (by decide) (by decide), ?_, ?_, ?_⟩
  · rw [C2_lock_protects_ownership.2.1 1 200 9 _ _ ⟨"0:0", 0, 0, 2, 100, 0, 8⟩
      (by decide) (by decide) (by decide)]
    rfl
  · exact C2_lock_protects_ownership.2.2.1 _ 1 _ 5 "0:0" ⟨"0:0", 0, 0, 2, 100, 0, 8⟩
      (by decide) (by decide) (by decide)
  · exact C2_lock_protects_ownership.2.2.2 _ 1 _ 5 (by decide)

/-! ## C10: internal coherence of the returned result -/

theorem claimsFor_length_split (st0 : Store) (u : ℕ) (now : Int) (aid : ℕ)
    (c : CellInfo) :
    (claimsFor st0 u now aid c).length =
      (if isGain st0 u now c then 1 else 0) +
        (if isRefresh st0 u c then 1 else 0) := by
  unfold claimsFor isGain isCreate isRefresh isTransfer
  rcases findCell st0 c.cellId with _ | e
  · simp
  · by_cases he : e.ownerUserId = u
    · simp [he]
    · by_cases hl : now < e.lockedUntil
      · simp [he, hl, not_le.mpr hl]
      · simp [he, hl, not_lt.mp hl]

theorem length_flatMap_split {α β : Type} (f : α → List β) (p q : α → Bool)
    (h : ∀ x, (f x).length = (if p x then 1 else 0) + (if q x then 1 else 0)) :
    ∀ l : List α, (l.flatMap f).length = (l.filter p).length + (l.filter q).length := by
  intro l
  induction l with
  | nil => simp
  | cons x xs ih =>
    rw [List.flatMap_cons, List.length_append, ih, h x, List.filter_cons,
      List.filter_cons]
    by_cases hp : p x <;> by_cases hq : q x <;> simp [hp, hq] <;> omega

/-- C10: in every invocation's result, lost cells are also gained,
gained and defended cells are disjoint, the number of claims created is
the number of gained plus defended cells, and the number of cell rows
created is the number of gained cells that had no prior record. -/
theorem C10_result_invariants (st : Store) (u : ℕ) (a : Activity) (now : Int) :
    (∀ id ∈ (applyLoopClaims st u a now).2.lostCellIds,
      id ∈ (applyLoopClaims st u a now).2.gainedCellIds) ∧
    (∀ id ∈ (applyLoopClaims st u a now).2.gainedCellIds,
      id ∉ (applyLoopClaims st u a now).2.defendedCellIds) ∧
    (applyLoopClaims st u a now).2.claimsCreated =
      (applyLoopClaims st u a now).2.gainedCellIds.length +
        (applyLoopClaims st u a now).2.defendedCellIds.length ∧
    (applyLoopClaims st u a now).2.cellsCreated =
      ((applyLoopClaims st u a now).2.gainedCellIds.filter
        (fun id => (findCell st id).isNone)).length := by
  rcases applyLoopClaims_eq_cases st u a now with h | ⟨s, poly, _, _, h⟩
  · rw [h]
    refine ⟨by simp [zeroResult], by simp [zeroResult], by simp [zeroResult],
      by simp [zeroResult]⟩
  · rw [h]
    obtain ⟨_, _, _, _, _, _, _, _, m9, m10, m11, m12, m13, _⟩ :=
      applyLoopClaimsRest_spec st u a now (decodePolyline s) poly
    set cells := polygonToCells (decodePolyline s) poly with hcells
    refine ⟨?_, ?_, ?_, ?_⟩
    · intro id hid
      rw [m11] at hid
      rw [m9]
      obtain ⟨c, hcm, hcid⟩ := List.mem_map.mp hid
      have hcf := (List.mem_filter.mp hcm).2
      refine List.mem_map.mpr ⟨c, List.mem_filter.mpr
        ⟨(List.mem_filter.mp hcm).1, ?_⟩, hcid⟩
      simp [isGain, hcf]
    · intro id hid hid'
      rw [m9] at hid
      rw [m10] at hid'
      obtain ⟨c, hcm, hcid⟩ := List.mem_map.mp hid
      obtain ⟨c', hcm', hcid'⟩ := List.mem_map.mp hid'
      have hg := (List.mem_filter.mp hcm).2
      have hr := (List.mem_filter.mp hcm').2
      have hcc : c'.cellId = c.cellId := by rw [hcid', hcid]
      unfold isGain isCreate isTransfer at hg
      unfold isRefresh at hr
      rw [hcc] at hr
      rcases hfc : findCell st c.cellId with _ | e
      · rw [hfc] at hr
        simp at hr
      · rw [hfc] at hg hr
        have he : e.ownerUserId = u := by simpa using hr
        simp [hfc, he] at hg
    · rw [m13, m9, m10, List.length_map, List.length_map]
      exact length_flatMap_split (claimsFor st u now a.id) (isGain st u now)
        (isRefresh st u) (claimsFor_length_split st u now a.id) cells
    · rw [m12, m9]
      rw [List.filter_map]
      rw [List.length_map, List.filter_filter]
      congr 1
      apply List.filter_congr
      intro c _
      unfold isGain isCreate isTransfer
      rcases hfc : findCell st c.cellId with _ | e
      · simp [Function.comp, hfc]
      · simp [Function.comp, hfc]

/-! ## C6: the loop cache is written exactly once on rasterization -/

/-- C6: when the polyline decodes, cleans and closes, the activity's
cached loop polygon and bounding box are written exactly once (a single
`setLoopCache`) precisely when the rasterizer produced at least one
cell, regardless of the ownership or lock state of any cell — and
otherwise the activities table is untouched. -/
theorem C6_loop_cache_written_once (st : Store) (u : ℕ) (a : Activity) (now : Int)
    (s : String) (poly : List (ℤ × ℤ))
    (hp : a.summaryPolyline = some s)
    (hc : cleanPolygonPoints (decodePolyline s) = some poly)
    (hd : ¬ LOOP_CLOSE_METERS <
      distanceMeters ((pointsToMercator (decodePolyline s)).headD (0, 0))
        ((pointsToMercator (decodePolyline s)).getLastD (0, 0))) :
    (applyLoopClaims st u a now).1.activities =
      (if (polygonToCells (decodePolyline s) poly).length > 0 then
        setLoopCache st.activities a.id (loopCacheOf poly)
      else st.activities) := by
  rw [applyLoopClaims_gate st u a now s poly hp hc, if_neg hd]
  exact (applyLoopClaimsRest_spec st u a now (decodePolyline s) poly).2.1

/-- Witness for C6: the closed equator loop at a concrete store. -/
theorem C6_witness :
    (applyLoopClaims
        ⟨[], [], [(⟨1, some "???_ibE_ibE?~hbE~hbE", none⟩ : Activity)], [], [], []⟩ 1
        ⟨1, some "???_ibE_ibE?~hbE~hbE", none⟩ 5).1.activities =
      (if (polygonToCells (decodePolyline "???_ibE_ibE?~hbE~hbE")
          [(0, 0), (100000, 0), (100000, 100000), (0, 0)]).length > 0 then
        setLoopCache [(⟨1, some "???_ibE_ibE?~hbE~hbE", none⟩ : Activity)] 1
          (loopCacheOf [(0, 0), (100000, 0), (100000, 100000), (0, 0)])
      else [(⟨1, some "???_ibE_ibE?~hbE~hbE", none⟩ : Activity)]) :=
  C6_loop_cache_written_once
    ⟨[], [], [(⟨1, some "???_ibE_ibE?~hbE~hbE", none⟩ : Activity)], [], [], []⟩ 1
    ⟨1, some "???_ibE_ibE?~hbE~hbE", none⟩ 5 "???_ibE_ibE?~hbE~hbE"
    [(0, 0), (100000, 0), (100000, 100000), (0, 0)] rfl (by decide)
    closedEquatorLoop_gate

/-! ## C9: grid round-trip through the projection -/

theorem HALF_EARTH_pos : (0 : ℝ) < HALF_EARTH := by
  unfold HALF_EARTH
  norm_num

/-- The inverse projection is a section of the projection: projecting
`mercatorToLngLat x y` back gives `(x, y)` exactly (in real
arithmetic). -/
theorem lngLatToMercator_mercatorToLngLat (x y : ℝ) :
    lngLatToMercator (mercatorToLngLat x y).1 (mercatorToLngLat x y).2 = (x, y) := by
  unfold lngLatToMercator mercatorToLngLat
  have hH : HALF_EARTH ≠ 0 := ne_of_gt HALF_EARTH_pos
  have hpi : Real.pi ≠ 0 := Real.pi_ne_zero
  refine Prod.ext ?_ ?_
  · show x * 180 / HALF_EARTH * HALF_EARTH / 180 = x
    field_simp
  · show Real.log (Real.tan ((90 + (360 / Real.pi *
        Real.arctan (Real.exp (y * Real.pi / HALF_EARTH)) - 90)) *
        (Real.pi / 360))) * (HALF_EARTH / Real.pi) = y
    have h1 : (90 + (360 / Real.pi *
        Real.arctan (Real.exp (y * Real.pi / HALF_EARTH)) - 90)) *
        (Real.pi / 360) = Real.arctan (Real.exp (y * Real.pi / HALF_EARTH)) := by
      field_simp
      ring
    rw [h1, Real.tan_arctan, Real.log_exp]
    field_simp

/-- C9: the planar bounding box of the projected corners of
`cellToGeoJSONRing cellX cellY` is exactly the cell's square — in the
`bboxFold` layout `(minX, maxX, minY, maxY)` it is
`(cellX*50, (cellX+1)*50, cellY*50, (cellY+1)*50)`, i.e. the claim's
`[cellX*50, cellY*50, (cellX+1)*50, (cellY+1)*50]` — and the cell index
of the planar center point (`floor` of each coordinate over 50) is
`(cellX, cellY)` itself. -/
theorem C9_grid_roundtrip (cellX cellY : ℤ) :
    (let projected := (cellToGeoJSONRing cellX cellY).map
      (fun p => lngLatToMercator p.1 p.2)
     bboxFold projected.tail
       ((projected.headD (0, 0)).1, (projected.headD (0, 0)).1,
        (projected.headD (0, 0)).2, (projected.headD (0, 0)).2)) =
      ((cellX : ℝ) * CELL_SIZE_METERS, ((cellX : ℝ) + 1) * CELL_SIZE_METERS,
       (cellY : ℝ) * CELL_SIZE_METERS, ((cellY : ℝ) + 1) * CELL_SIZE_METERS) ∧
    mercatorToCell ((cellX : ℝ) * CELL_SIZE_METERS + CELL_SIZE_METERS / 2)
      ((cellY : ℝ) * CELL_SIZE_METERS + CELL_SIZE_METERS / 2) = (cellX, cellY) := by
  have hcell : CELL_SIZE_METERS = (50 : ℝ) := rfl
  set x0 : ℝ := (cellX : ℝ) * CELL_SIZE_METERS with hx0
  set x1 : ℝ := ((cellX : ℝ) + 1) * CELL_SIZE_METERS with hx1
  set y0 : ℝ := (cellY : ℝ) * CELL_SIZE_METERS with hy0
  set y1 : ℝ := ((cellY : ℝ) + 1) * CELL_SIZE_METERS with hy1
  have hx : x0 < x1 := by
    rw [hx0, hx1, hcell]
    nlinarith [lt_add_one ((cellX : ℝ))]
  have hy : y0 < y1 := by
    rw [hy0, hy1, hcell]
    nlinarith [lt_add_one ((cellY : ℝ))]
  constructor
  · have hproj : (cellToGeoJSONRing cellX cellY).map
        (fun p => lngLatToMercator p.1 p.2) =
        [(x0, y0), (x1, y0), (x1, y1), (x0, y1), (x0, y0)] := by
      unfold cellToGeoJSONRing
      simp only [List.map_cons, List.map_nil]
      rw [lngLatToMercator_mercatorToLngLat, lngLatToMercator_mercatorToLngLat,
        lngLatToMercator_mercatorToLngLat, lngLatToMercator_mercatorToLngLat]
    rw [hproj]
    show bboxFold [(x1, y0), (x1, y1), (x0, y1), (x0, y0)] (x0, x0, y0, y0) =
      (x0, x1, y0, y1)
    unfold bboxFold
    simp only [List.foldl_cons, List.foldl_nil]
    simp [hx, hy, not_lt.mpr hx.le, not_lt.mpr hy.le, lt_irrefl]
  · unfold mercatorToCell
    refine Prod.ext ?_ ?_
    · show ⌊(x0 + CELL_SIZE_METERS / 2) / CELL_SIZE_METERS⌋ = cellX
      rw [Int.floor_eq_iff]
      rw [hx0, hcell]
      constructor
      · nlinarith
      · nlinarith
    · show ⌊(y0 + CELL_SIZE_METERS / 2) / CELL_SIZE_METERS⌋ = cellY
      rw [Int.floor_eq_iff]
      rw [hy0, hcell]
      constructor
      · nlinarith
      · nlinarith

/-! ## C7: a failing activity is skipped and earlier writes survive -/

theorem processCell_claims_extend (u : ℕ) (now : Int) (aid : ℕ)
    (s : LoopState) (c : CellInfo) :
    s.st.claims <+: (processCell u now aid s c).st.claims := by
  rcases hfc : findCell s.st c.cellId with _ | e
  · rw [processCell_create u now aid s c hfc]
    exact ⟨_, rfl⟩
  · by_cases he : e.ownerUserId = u
    · rw [processCell_refresh u now aid s c e hfc he]
      exact ⟨_, rfl⟩
    · by_cases hl : now < e.lockedUntil
      · rw [processCell_skip u now aid s c e hfc he hl]
      · rw [processCell_transfer u now aid s c e hfc he hl]
        exact ⟨_, rfl⟩

theorem foldl_processCell_claims_extend (u : ℕ) (now : Int) (aid : ℕ) :
    ∀ (cs : List CellInfo) (s : LoopState),
      s.st.claims <+: (cs.foldl (processCell u now aid) s).st.claims := by
  intro cs
  induction cs with
  | nil => intro s; exact List.prefix_rfl
  | cons c cs ih =>
    intro s
    rw [List.foldl_cons]
    exact (processCell_claims_extend u now aid s c).trans
      (ih (processCell u now aid s c))

theorem applyLoopClaims_claims_extend (st : Store) (u : ℕ) (a : Activity)
    (now : Int) : st.claims <+: (applyLoopClaims st u a now).1.claims := by
  rcases applyLoopClaims_eq_cases st u a now with h | ⟨s, poly, _, _, h⟩
  · rw [h]
  · rw [h]
    rw [(applyLoopClaimsRest_spec st u a now (decodePolyline s) poly).1]
    exact ⟨_, rfl⟩

theorem applyLoopClaimsUpTo_claims_extend (st : Store) (u : ℕ) (a : Activity)
    (now : Int) (k : ℕ) :
    st.claims <+: (applyLoopClaimsUpTo st u a now k).claims := by
  unfold applyLoopClaimsUpTo
  rcases a.summaryPolyline with _ | s
  · exact List.prefix_rfl
  · cases he : s.isEmpty
    · simp only [he, Bool.false_eq_true, if_false]
      rcases hc : cleanPolygonPoints (decodePolyline s) with _ | poly
      · exact List.prefix_rfl
      · dsimp only
        by_cases hd : LOOP_CLOSE_METERS <
            distanceMeters ((pointsToMercator (decodePolyline s)).headD (0, 0))
              ((pointsToMercator (decodePolyline s)).getLastD (0, 0))
        · simp only [if_pos hd]
          exact List.prefix_rfl
        · simp only [if_neg hd]
          refine List.IsPrefix.trans ?_
            (foldl_processCell_claims_extend u now a.id _ _)
          dsimp only
          split <;> exact List.prefix_rfl
    · simp only [he, if_true]
      exact List.prefix_rfl

/-- C7: in the resync batch loop, an exception while applying one
activity's loop claims (modelled as the store error interrupting that
activity after `k` cells) is caught and the loop continues with the
remaining activities; and the claims table only ever grows, so claim
rows already written — by earlier activities or by the failed
activity's earlier cells — are preserved verbatim as a prefix. -/
theorem C7_batch_failure_isolation :
    (∀ (st : Store) (u : ℕ) (a : Activity) (acts : List Activity) (now : Int)
        (failPlan : ℕ → Option ℕ) (k : ℕ),
      failPlan a.id = some k →
      resyncProcess st u (a :: acts) now failPlan =
        resyncProcess (applyLoopClaimsUpTo st u a now k) u acts now failPlan) ∧
    (∀ (st : Store) (u : ℕ) (acts : List Activity) (now : Int)
        (failPlan : ℕ → Option ℕ),
      st.claims <+: (resyncProcess st u acts now failPlan).1.claims) := by
  constructor
  · intro st u a acts now failPlan k hk
    unfold resyncProcess
    rw [List.foldl_cons]
    simp only [hk]
  · intro st u acts now failPlan
    have key : ∀ (as : List Activity) (acc : Store × List String × List String),
        acc.1.claims <+:
          (as.foldl
            (fun acc a =>
              match failPlan a.id with
              | some k => (applyLoopClaimsUpTo acc.1 u a now k, acc.2.1, acc.2.2)
              | none =>
                let r := applyLoopClaims acc.1 u a now
                (r.1, acc.2.1 ++ r.2.gainedCellIds, acc.2.2 ++ r.2.lostCellIds))
            acc).1.claims := by
      intro as
      induction as with
      | nil => intro acc; exact List.prefix_rfl
      | cons a as ih =>
        intro acc
        rw [List.foldl_cons]
        refine List.IsPrefix.trans ?_ (ih _)
        rcases hk : failPlan a.id with _ | k
        · simp only [hk]
          exact applyLoopClaims_claims_extend acc.1 u a now
        · simp only [hk]
          exact applyLoopClaimsUpTo_claims_extend acc.1 u a now k
    exact key acts (st, [], [])

/-- Witness for C7: activity 1 fails (storage error before any cell is
persisted), activity 2 is still processed, and the claims of the
initial store survive as a prefix. -/
theorem C7_witness :
    resyncProcess ⟨[], [], [], [], [], []⟩ 1
        [⟨1, none, none⟩, ⟨2, none, none⟩] 0
        (fun id => if id = 1 then some 0 else none) =
      resyncProcess
        (applyLoopClaimsUpTo ⟨[], [], [], [], [], []⟩ 1 ⟨1, none, none⟩ 0 0) 1
        [⟨2, none, none⟩] 0 (fun id => if id = 1 then some 0 else none) ∧
    ([] : List TerritoryClaim) <+:
      (resyncProcess ⟨[], [], [], [], [], []⟩ 1
        [⟨1, none, none⟩, ⟨2, none, none⟩] 0
        (fun id => if id = 1 then some 0 else none)).1.claims :=
  ⟨C7_batch_failure_isolation.1 ⟨[], [], [], [], [], []⟩ 1 ⟨1, none, none⟩
      [⟨2, none, none⟩] 0 (fun id => if id = 1 then some 0 else none) 0 rfl,
   C7_batch_failure_isolation.2 ⟨[], [], [], [], [], []⟩ 1
      [⟨1, none, none⟩, ⟨2, none, none⟩] 0
      (fun id => if id = 1 then some 0 else none)⟩

/-! ## C8: one conquest notification per distinct previous owner

`lostByPreviousOwner` is an insertion-ordered association list; the
lemmas below characterize the fold of `lostMapAdd` that builds it. -/

theorem lostMapAdd_any_iff (m : List (ℕ × List String × List (ℤ × ℤ))) (o : ℕ) :
    (m.any (fun e => e.1 == o)) = true ↔ o ∈ m.map (·.1) := by
  rw [List.any_eq_true]
  constructor
  · rintro ⟨e, he, hbeq⟩
    exact List.mem_map.mpr ⟨e, he, beq_iff_eq.mp hbeq⟩
  · intro h
    obtain ⟨e, he, hbeq⟩ := List.mem_map.mp h
    exact ⟨e, he, beq_iff_eq.mpr hbeq⟩

theorem lostMapAdd_keys (m : List (ℕ × List String × List (ℤ × ℤ))) (o : ℕ)
    (id : String) (xy : ℤ × ℤ) :
    (lostMapAdd m o id xy).map (·.1) =
      if o ∈ m.map (·.1) then m.map (·.1) else m.map (·.1) ++ [o] := by
  unfold lostMapAdd
  by_cases hmem : o ∈ m.map (·.1)
  · rw [if_pos ((lostMapAdd_any_iff m o).mpr hmem), if_pos hmem]
    rw [List.map_map]
    apply List.map_congr_left
    intro e _
    by_cases he : e.1 = o <;> simp [he]
  · rw [if_neg (fun h => hmem ((lostMapAdd_any_iff m o).mp h)), if_neg hmem]
    simp

theorem lostMapAdd_find_same (m : List (ℕ × List String × List (ℤ × ℤ))) (o : ℕ)
    (id : String) (xy : ℤ × ℤ) :
    (lostMapAdd m o id xy).find? (fun e => e.1 == o) =
      match m.find? (fun e => e.1 == o) with
      | none => some (o, [id], [xy])
      | some e => some (e.1, e.2.1 ++ [id], e.2.2 ++ [xy]) := by
  unfold lostMapAdd
  by_cases hmem : o ∈ m.map (·.1)
  · rw [if_pos ((lostMapAdd_any_iff m o).mpr hmem)]
    have key : ∀ (l : List (ℕ × List String × List (ℤ × ℤ))),
        (l.map (fun e => if e.1 == o then (e.1, e.2.1 ++ [id], e.2.2 ++ [xy]) else e)).find?
            (fun e => e.1 == o) =
          (l.find? (fun e => e.1 == o)).map
            (fun e => (e.1, e.2.1 ++ [id], e.2.2 ++ [xy])) := by
      intro l
      induction l with
      | nil => rfl
      | cons e l ih =>
        by_cases he : e.1 = o
        · have hb : (e.1 == o) = true := beq_iff_eq.mpr he
          simp only [List.map_cons, hb, if_true, List.find?, hb]
          rfl
        · have hb : (e.1 == o) = false := by simp [he]
          simp only [List.map_cons, hb, Bool.false_eq_true, if_false, List.find?, hb]
          exact ih
    rw [key]
    obtain ⟨e0, he0, hbeq⟩ := List.mem_map.mp hmem
    rcases hf : m.find? (fun e => e.1 == o) with _ | e1
    · rw [List.find?_eq_none] at hf
      exact absurd (beq_iff_eq.mpr hbeq) (hf e0 he0)
    · rw [hf]
      rfl
  · rw [if_neg (fun h => hmem ((lostMapAdd_any_iff m o).mp h))]
    have hf : m.find? (fun e => e.1 == o) = none := by
      rw [List.find?_eq_none]
      intro e he hbeq
      exact hmem (List.mem_map.mpr ⟨e, he, beq_iff_eq.mp hbeq⟩)
    rw [List.find?_append, hf]
    simp

theorem lostMapAdd_find_other (m : List (ℕ × List String × List (ℤ × ℤ)))
    (o o' : ℕ) (id : String) (xy : ℤ × ℤ) (hne : o' ≠ o) :
    (lostMapAdd m o id xy).find? (fun e => e.1 == o') =
      m.find? (fun e => e.1 == o') := by
  unfold lostMapAdd
  split
  · have key : ∀ (l : List (ℕ × List String × List (ℤ × ℤ))),
        (l.map (fun e => if e.1 == o then (e.1, e.2.1 ++ [id], e.2.2 ++ [xy]) else e)).find?
            (fun e => e.1 == o') = l.find? (fun e => e.1 == o') := by
      intro l
      induction l with
      | nil => rfl
      | cons e l ih =>
        by_cases he : e.1 = o
        · have hb : (e.1 == o) = true := beq_iff_eq.mpr he
          have hb' : (e.1 == o') = false := by
            simp only [he, beq_eq_false_iff_ne, ne_eq]
            exact fun hx => hne hx.symm
          simp only [List.map_cons, hb, if_true, List.find?, hb']
          exact ih
        · have hb : (e.1 == o) = false := by simp [he]
          simp only [List.map_cons, hb, Bool.false_eq_true, if_false, List.find?]
          cases hb' : (e.1 == o')
          · exact ih
          · rfl
    exact key m
  · rw [List.find?_append]
    have : (([(o, [id], [xy])] :
        List (ℕ × List String × List (ℤ × ℤ))).find? (fun e => e.1 == o')) = none := by
      simp only [List.find?, beq_eq_false_iff_ne, ne_eq]
      have hb : (o == o') = false := by
        simp only [beq_eq_false_iff_ne, ne_eq]
        exact fun hx => hne hx.symm
      simp [hb]
    rw [this]
    cases m.find? (fun e => e.1 == o') <;> rfl

theorem lostMapFold_spec (ω : CellInfo → ℕ) :
    ∀ (ts : List CellInfo) (m : List (ℕ × List String × List (ℤ × ℤ))),
      (m.map (·.1)).Nodup →
      (((ts.foldl (fun m c => lostMapAdd m (ω c) c.cellId (c.cellX, c.cellY)) m).map
          (·.1)).Nodup ∧
      (∀ o, o ∈ (ts.foldl (fun m c => lostMapAdd m (ω c) c.cellId (c.cellX, c.cellY))
          m).map (·.1) ↔ o ∈ m.map (·.1) ∨ o ∈ ts.map ω) ∧
      (∀ o, (ts.foldl (fun m c => lostMapAdd m (ω c) c.cellId (c.cellX, c.cellY))
          m).find? (fun e => e.1 == o) =
        match m.find? (fun e => e.1 == o), ts.filter (fun c => ω c == o) with
        | none, [] => none
        | none, l => some (o, l.map (·.cellId), l.map (fun c => (c.cellX, c.cellY)))
        | some e, l =>
          some (e.1, e.2.1 ++ l.map (·.cellId),
            e.2.2 ++ l.map (fun c => (c.cellX, c.cellY))))) := by
  intro ts
  induction ts with
  | nil =>
    intro m hnd
    refine ⟨hnd, fun o => by simp, fun o => ?_⟩
    rcases hf : m.find? (fun e => e.1 == o) with _ | e
    · rw [List.foldl_nil, hf]
      rfl
    · rw [List.foldl_nil, hf]
      simp
  | cons c ts ih =>
    intro m hnd
    rw [List.foldl_cons]
    have hnd' : ((lostMapAdd m (ω c) c.cellId (c.cellX, c.cellY)).map (·.1)).Nodup := by
      rw [lostMapAdd_keys]
      split
      · exact hnd
      · rename_i hmem
        rw [List.nodup_append]
        refine ⟨hnd, List.nodup_singleton _, ?_⟩
        intro x hx hxo
        rw [List.mem_singleton] at hxo
        exact hmem (hxo ▸ hx)
    obtain ⟨k1, k2, k3⟩ := ih (lostMapAdd m (ω c) c.cellId (c.cellX, c.cellY)) hnd'
    refine ⟨k1, ?_, ?_⟩
    · intro o
      rw [k2 o, lostMapAdd_keys]
      split
      · rename_i hmem
        have habs : o = ω c → o ∈ m.map (·.1) := fun h => h ▸ hmem
        simp only [List.map_cons, List.mem_cons]
        tauto
      · simp only [List.mem_append, List.mem_singleton, List.map_cons, List.mem_cons]
        tauto
    · intro o
      rw [k3 o]
      by_cases hoc : o = ω c
      · subst hoc
        rw [lostMapAdd_find_same]
        have hfc : (ω c == ω c) = true := beq_self_eq_true _
        rw [List.filter_cons, hfc]
        simp only [if_true]
        rcases hf : m.find? (fun e => e.1 == ω c) with _ | e
        · rw [hf]
          simp
        · rw [hf]
          simp
      · rw [lostMapAdd_find_other m (ω c) o c.cellId (c.cellX, c.cellY) hoc]
        have hfc : (ω c == o) = false := by
          simp only [beq_eq_false_iff_ne, ne_eq]
          exact fun hx => hoc hx.symm
        rw [List.filter_cons, hfc]
        simp only [Bool.false_eq_true, if_false]

/-- In a list with pairwise-distinct keys, `find?` on an element's key
returns that element. -/
theorem find?_key_of_mem {α : Type} (l : List (ℕ × α))
    (hnd : (l.map (·.1)).Nodup) (e : ℕ × α) (he : e ∈ l) :
    l.find? (fun x => x.1 == e.1) = some e := by
  induction l with
  | nil => cases he
  | cons e' l ih =>
    rw [List.map_cons, List.nodup_cons] at hnd
    rcases List.mem_cons.mp he with h | h
    · subst h
      simp [List.find?]
    · have hne : (e'.1 == e.1) = false := by
        simp only [beq_eq_false_iff_ne, ne_eq]
        intro hx
        exact hnd.1 (hx ▸ List.mem_map_of_mem (·.1) h)
      simp only [List.find?, hne]
      exact ih hnd.2 h

/-- Every entry of the `lostByPreviousOwner` map built over `ts` groups
exactly the cells of `ts` whose owner is the entry's key, in order. -/
theorem lostMap_entry_shape (ω : CellInfo → ℕ) (ts : List CellInfo)
    (e : ℕ × List String × List (ℤ × ℤ))
    (he : e ∈ ts.foldl (fun m c => lostMapAdd m (ω c) c.cellId (c.cellX, c.cellY)) []) :
    e.2.1 = (ts.filter (fun c => ω c == e.1)).map (·.cellId) ∧
    e.2.2 = (ts.filter (fun c => ω c == e.1)).map (fun c => (c.cellX, c.cellY)) ∧
    ts.filter (fun c => ω c == e.1) ≠ [] := by
  obtain ⟨k1, _, k3⟩ := lostMapFold_spec ω ts [] (by simp)
  have hfind := find?_key_of_mem _ k1 e he
  rw [k3 e.1] at hfind
  rcases hl : ts.filter (fun c => ω c == e.1) with _ | ⟨c', l⟩
  · rw [hl] at hfind
    simp only [List.find?_nil] at hfind
    cases hfind
  · rw [hl] at hfind
    simp only [List.find?_nil] at hfind
    have he' := (Option.some.inj hfind).symm
    exact ⟨congrArg (fun x => x.2.1) he', congrArg (fun x => x.2.2) he', by simp⟩

/-- Keys of the `lostByPreviousOwner` map over `ts`: pairwise distinct
and exactly the owners occurring in `ts`. -/
theorem lostMap_keys (ω : CellInfo → ℕ) (ts : List CellInfo) :
    (((ts.foldl (fun m c => lostMapAdd m (ω c) c.cellId (c.cellX, c.cellY))
      []).map (·.1)).Nodup) ∧
    (∀ o, o ∈ (ts.foldl (fun m c => lostMapAdd m (ω c) c.cellId (c.cellX, c.cellY))
      []).map (·.1) ↔ o ∈ ts.map ω) := by
  obtain ⟨k1, k2, _⟩ := lostMapFold_spec ω ts [] (by simp)
  exact ⟨k1, fun o => by simpa using k2 o⟩

/-- C8: the notification block of one run appends exactly the mapped
`lostByPreviousOwner` entries: one notification per distinct previous
owner of a transferred cell (pairwise-distinct recipients, covering
precisely the previous owners), and each payload carries the count of
that owner's lost cells, the first 100 of their cell ids, the bounding
box and centroid of the lost cell centers under the inverse projection,
and names the attacker exactly when a friendship row links recipient
and claimer, with the anonymized body otherwise. -/
theorem C8_conquest_aggregation (st : Store) (u : ℕ) (a : Activity) (now : Int)
    (pts poly : List (ℤ × ℤ)) :
    conquestsEmitted st u a now pts poly =
      ((((polygonToCells pts poly).filter (isTransfer st u now)).foldl
        (fun m c => lostMapAdd m (prevOwner st c) c.cellId (c.cellX, c.cellY)) []).map
        (fun e => conquestNotification st u ((findUser st u).bind (·.nickname))
          e.1 e.2.1 e.2.2)) ∧
    ((conquestsEmitted st u a now pts poly).map (·.userId)).Nodup ∧
    (∀ o, o ∈ (conquestsEmitted st u a now pts poly).map (·.userId) ↔
      o ∈ ((polygonToCells pts poly).filter (isTransfer st u now)).map (prevOwner st)) ∧
    (∀ n ∈ conquestsEmitted st u a now pts poly,
      n.type = "TERRITORY_CONQUERED" ∧
      n.title = "Your territory was conquered!" ∧
      n.attackerUserId = u ∧
      ownerLostCells st u now pts poly n.userId ≠ [] ∧
      n.countLost = (ownerLostCells st u now pts poly n.userId).length ∧
      n.cellIds =
        ((ownerLostCells st u now pts poly n.userId).map (·.cellId)).take 100 ∧
      n.bbox = (conquestGeo ((ownerLostCells st u now pts poly n.userId).map
        (fun c => (c.cellX, c.cellY)))).map (·.1) ∧
      n.centroid = (conquestGeo ((ownerLostCells st u now pts poly n.userId).map
        (fun c => (c.cellX, c.cellY)))).map (·.2) ∧
      n.attackerNickname = (if friendshipExists st n.userId u then
        (findUser st u).bind (·.nickname) else none) ∧
      n.body = (match n.attackerNickname with
        | some nick => nick ++ " conquered part of your territory."
        | none => "Some of your land was taken while you were away.")) := by
  have h5 := (applyLoopClaimsRest_spec st u a now pts poly).2.2.2.2.1
  have hnew : conquestsEmitted st u a now pts poly =
      ((((polygonToCells pts poly).filter (isTransfer st u now)).foldl
        (fun m c => lostMapAdd m (prevOwner st c) c.cellId (c.cellX, c.cellY)) []).map
        (fun e => conquestNotification st u ((findUser st u).bind (·.nickname))
          e.1 e.2.1 e.2.2)) := by
    unfold conquestsEmitted
    rw [h5]
    exact List.drop_left _ _
  have hmapu : (conquestsEmitted st u a now pts poly).map (·.userId) =
      ((((polygonToCells pts poly).filter (isTransfer st u now)).foldl
        (fun m c => lostMapAdd m (prevOwner st c) c.cellId (c.cellX, c.cellY))
        []).map (·.1)) := by
    rw [hnew, List.map_map]
    exact List.map_congr_left (fun e _ => rfl)
  obtain ⟨hk1, hk2⟩ := lostMap_keys (prevOwner st)
    ((polygonToCells pts poly).filter (isTransfer st u now))
  refine ⟨hnew, ?_, ?_, ?_⟩
  · rw [hmapu]
    exact hk1
  · intro o
    rw [hmapu]
    exact hk2 o
  · intro n hn
    rw [hnew] at hn
    obtain ⟨e, he, hne⟩ := List.mem_map.mp hn
    obtain ⟨e1, e2, e3⟩ := lostMap_entry_shape (prevOwner st)
      ((polygonToCells pts poly).filter (isTransfer st u now)) e he
    subst hne
    refine ⟨rfl, rfl, rfl, ?_, ?_, ?_, ?_, ?_, rfl, rfl⟩
    · show ownerLostCells st u now pts poly e.1 ≠ []
      unfold ownerLostCells
      exact e3
    · show e.2.1.length = (ownerLostCells st u now pts poly e.1).length
      unfold ownerLostCells
      rw [e1, List.length_map]
    · show e.2.1.take 100 =
        ((ownerLostCells st u now pts poly e.1).map (·.cellId)).take 100
      unfold ownerLostCells
      rw [e1]
    · show (conquestGeo e.2.2).map (·.1) =
        (conquestGeo ((ownerLostCells st u now pts poly e.1).map
          (fun c => (c.cellX, c.cellY)))).map (·.1)
      unfold ownerLostCells
      rw [e2]
    · show (conquestGeo e.2.2).map (·.2) =
        (conquestGeo ((ownerLostCells st u now pts poly e.1).map
          (fun c => (c.cellX, c.cellY)))).map (·.2)
      unfold ownerLostCells
      rw [e2]

/-! ## C5: winding independence of the rasterizer

Traversing the ring backwards swaps the endpoints of every edge the
ray-casting loop visits and permutes the edge list; `edgeCross` is
endpoint-symmetric, and the even-odd toggle fold is invariant under
permutation, so `pointInPolygon` — and with it the whole of
`polygonToCells` — is winding-direction independent. -/

theorem xline_swap (px py : ℝ) (a b : ℝ × ℝ) (h : a.2 ≠ b.2) :
    (a.1 - b.1) * (py - b.2) / (a.2 - b.2) + b.1 =
    (b.1 - a.1) * (py - a.2) / (b.2 - a.2) + a.1 := by
  have h1 : b.2 - a.2 ≠ 0 := sub_ne_zero.mpr (Ne.symm h)
  have h2 : a.2 - b.2 ≠ 0 := sub_ne_zero.mpr h
  field_simp
  ring

/-- The crossing test of one edge does not depend on the edge's
orientation: the y-straddle condition is symmetric and, when it holds,
the two ends are at distinct heights and the intersection abscissa is
the same from either end. -/
theorem edgeCross_swap (px py : ℝ) (a b : ℝ × ℝ) :
    edgeCross px py (b, a) = edgeCross px py (a, b) := by
  unfold edgeCross
  dsimp only
  rw [← Bool.decide_and, ← Bool.decide_and, decide_eq_decide]
  constructor
  · rintro ⟨hne, hlt⟩
    have hy : a.2 ≠ b.2 := by
      intro h
      exact hne (by rw [h])
    refine ⟨Ne.symm hne, ?_⟩
    rw [← xline_swap px py a b hy]
    exact hlt
  · rintro ⟨hne, hlt⟩
    have hy : a.2 ≠ b.2 := by
      intro h
      exact hne (by rw [h])
    refine ⟨Ne.symm hne, ?_⟩
    rw [xline_swap px py a b hy]
    exact hlt

theorem zip_reverse {α β : Type} :
    ∀ (A : List α) (B : List β), A.length = B.length →
      A.reverse.zip B.reverse = (A.zip B).reverse := by
  intro A
  induction A with
  | nil =>
    intro B h
    cases B with
    | nil => rfl
    | cons b B => simp at h
  | cons a A ih =>
    intro B h
    cases B with
    | nil => simp at h
    | cons b B =>
      have hlen : A.length = B.length := by simpa using h
      rw [List.reverse_cons, List.reverse_cons,
        List.zip_append (by simp [hlen]), ih B hlen]
      conv_rhs => rw [List.zip_cons_cons, List.reverse_cons]
      rfl

/-- The edges visited on the reversed ring are, up to order, the
original edges with their endpoints swapped. -/
theorem pipEdges_reverse_perm (P : List (ℝ × ℝ)) :
    (pipEdges P.reverse).Perm ((pipEdges P).map Prod.swap) := by
  cases P with
  | nil => simp [pipEdges]
  | cons p t =>
    have hne : (p :: t) ≠ [] := List.cons_ne_nil p t
    have hgl : (p :: t).getLast? = some ((p :: t).getLast hne) :=
      List.getLast?_eq_getLast _ hne
    have hd : (p :: t).dropLast ++ [(p :: t).getLast hne] = p :: t :=
      List.dropLast_append_getLast hne
    have hlen : (p :: t).dropLast.length = t.length := by simp
    have h2 : (pipEdges (p :: t)).map Prod.swap =
        ((p :: t).getLast hne, p) :: (p :: t).dropLast.zip t := by
      unfold pipEdges
      rw [hgl]
      dsimp only
      rw [List.zip_swap, List.zip_cons_cons]
    have hrev : (p :: t).reverse.getLast? = some p := by
      rw [List.getLast?_reverse]
      rfl
    have hrd : (p :: t).reverse.dropLast = t.reverse := by
      rw [List.reverse_cons, List.dropLast_concat]
    have h3 : pipEdges (p :: t).reverse = ((p :: t).zip (t ++ [p])).reverse := by
      unfold pipEdges
      rw [hrev]
      dsimp only
      rw [hrd]
      have hp : (p :: t.reverse) = (t ++ [p]).reverse := by
        rw [List.reverse_append]
        rfl
      rw [hp, zip_reverse _ _ (by simp)]
    have h4 : (p :: t).zip (t ++ [p]) =
        (p :: t).dropLast.zip t ++ [((p :: t).getLast hne, p)] := by
      conv_lhs => rw [← hd]
      rw [List.zip_append (by simpa using hlen)]
      rfl
    rw [h3, h4, List.reverse_concat, h2]
    exact (List.reverse_perm _).cons _

/-- Even-odd ray casting is winding-direction independent. -/
theorem pointInPolygon_reverse (px py : ℝ) (P : List (ℝ × ℝ)) :
    pointInPolygon px py P.reverse = pointInPolygon px py P := by
  unfold pointInPolygon
  rw [List.Perm.foldl_eq' (pipEdges_reverse_perm P) ?comm false, List.foldl_map]
  case comm =>
    intro x _ y _ z
    by_cases hx : edgeCross px py x <;> by_cases hy : edgeCross px py y <;>
      simp [hx, hy]
  have hfun : (fun (inside : Bool) (e : (ℝ × ℝ) × (ℝ × ℝ)) =>
      if edgeCross px py (Prod.swap e) then !inside else inside) =
      (fun inside e => if edgeCross px py e then !inside else inside) := by
    funext inside e
    rw [show Prod.swap e = (e.2, e.1) from rfl, edgeCross_swap px py e.1 e.2,
      Prod.mk.eta]
  rw [hfun]

theorem distanceMeters_comm (a b : ℝ × ℝ) :
    distanceMeters a b = distanceMeters b a := by
  unfold distanceMeters
  ring_nf

/-! ### The bounding box does not depend on the traversal direction

The `minX`/`maxX`/`minY`/`maxY` loop of `polygonToCells` seeds the fold
with the first vertex and folds over the rest; on the reversed ring the
seed is the last vertex instead.  Because `min`/`max` folds ignore which
member of the list seeds them and are invariant under permutation, both
traversals compute the same box. -/

theorem if_lt_eq_min (x a : ℝ) : (if x < a then x else a) = min a x := by
  rcases lt_or_ge x a with h | h
  · rw [if_pos h, min_eq_right h.le]
  · rw [if_neg (not_lt.mpr h), min_eq_left h]

theorem if_lt_eq_max (a x : ℝ) : (if a < x then x else a) = max a x := by
  rcases lt_or_ge a x with h | h
  · rw [if_pos h, max_eq_right h.le]
  · rw [if_neg (not_lt.mpr h), max_eq_left h]

theorem bboxFold_components : ∀ (rest : List (ℝ × ℝ)) (a b c d : ℝ),
    bboxFold rest (a, b, c, d) =
      ((rest.map (·.1)).foldl min a, (rest.map (·.1)).foldl max b,
       (rest.map (·.2)).foldl min c, (rest.map (·.2)).foldl max d) := by
  intro rest
  induction rest with
  | nil => intro a b c d; rfl
  | cons p rest ih =>
    intro a b c d
    show bboxFold rest (if p.1 < a then p.1 else a, if b < p.1 then p.1 else b,
        if p.2 < c then p.2 else c, if d < p.2 then p.2 else d) = _
    rw [if_lt_eq_min, if_lt_eq_max, if_lt_eq_min, if_lt_eq_max, ih]
    simp only [List.map_cons, List.foldl_cons]

theorem foldl_min_le_seed : ∀ (l : List ℝ) (s : ℝ), l.foldl min s ≤ s := by
  intro l
  induction l with
  | nil => intro s; exact le_refl s
  | cons a l ih => intro s; exact (ih (min s a)).trans (min_le_left s a)

theorem foldl_min_le_mem : ∀ (l : List ℝ) (s x : ℝ), x ∈ l → l.foldl min s ≤ x := by
  intro l
  induction l with
  | nil => intro s x hx; cases hx
  | cons a l ih =>
    intro s x hx
    rcases List.mem_cons.mp hx with h | h
    · subst h
      exact (foldl_min_le_seed l (min s x)).trans (min_le_right s x)
    · exact ih (min s a) x h

theorem foldl_min_seed_absorb : ∀ (l : List ℝ) (s t : ℝ),
    l.foldl min (min s t) = min s (l.foldl min t) := by
  intro l
  induction l with
  | nil => intro s t; rfl
  | cons a l ih =>
    intro s t
    rw [List.foldl_cons, List.foldl_cons, min_assoc, ih]

theorem seed_mem_foldl_min (l : List ℝ) (x y : ℝ) (hx : x ∈ l) (hy : y ∈ l) :
    l.foldl min x = l.foldl min y := by
  have h1 : l.foldl min (min y x) = l.foldl min x := by
    rw [foldl_min_seed_absorb]
    exact min_eq_right (foldl_min_le_mem l x y hy)
  have h2 : l.foldl min (min x y) = l.foldl min y := by
    rw [foldl_min_seed_absorb]
    exact min_eq_right (foldl_min_le_mem l y x hx)
  rw [← h1, min_comm y x, h2]

theorem foldl_max_ge_seed : ∀ (l : List ℝ) (s : ℝ), s ≤ l.foldl max s := by
  intro l
  induction l with
  | nil => intro s; exact le_refl s
  | cons a l ih => intro s; exact (le_max_left s a).trans (ih (max s a))

theorem foldl_max_ge_mem : ∀ (l : List ℝ) (s x : ℝ), x ∈ l → x ≤ l.foldl max s := by
  intro l
  induction l with
  | nil => intro s x hx; cases hx
  | cons a l ih =>
    intro s x hx
    rcases List.mem_cons.mp hx with h | h
    · subst h
      exact (le_max_right s x).trans (foldl_max_ge_seed l (max s x))
    · exact ih (max s a) x h

theorem foldl_max_seed_absorb : ∀ (l : List ℝ) (s t : ℝ),
    l.foldl max (max s t) = max s (l.foldl max t) := by
  intro l
  induction l with
  | nil => intro s t; rfl
  | cons a l ih =>
    intro s t
    rw [List.foldl_cons, List.foldl_cons, max_assoc, ih]

theorem seed_mem_foldl_max (l : List ℝ) (x y : ℝ) (hx : x ∈ l) (hy : y ∈ l) :
    l.foldl max x = l.foldl max y := by
  have h1 : l.foldl max (max y x) = l.foldl max x := by
    rw [foldl_max_seed_absorb]
    exact max_eq_right (foldl_max_ge_mem l x y hy)
  have h2 : l.foldl max (max x y) = l.foldl max y := by
    rw [foldl_max_seed_absorb]
    exact max_eq_right (foldl_max_ge_mem l y x hx)
  rw [← h1, max_comm y x, h2]

theorem tail_foldl_min_reverse (l : List ℝ) (hl : l ≠ []) :
    l.reverse.tail.foldl min (l.reverse.headD 0) =
      l.tail.foldl min (l.headD 0) := by
  rcases l with _ | ⟨x, t⟩
  · exact absurd rfl hl
  · rcases hr : (x :: t).reverse with _ | ⟨r0, rt⟩
    · have : (x :: t).reverse.length = 0 := by rw [hr]; rfl
      simp at this
    · have hr0 : r0 ∈ x :: t := by
        have : r0 ∈ (x :: t).reverse := by
          rw [hr]
          exact List.mem_cons_self r0 rt
        exact List.mem_reverse.mp this
      show rt.foldl min r0 = t.foldl min x
      have hstep1 : rt.foldl min r0 = (r0 :: rt).foldl min r0 := by
        rw [List.foldl_cons, min_self]
      have hstep2 : (r0 :: rt).foldl min r0 = (x :: t).foldl min r0 := by
        rw [← hr]
        exact List.Perm.foldl_eq' (List.reverse_perm (x :: t))
          (fun p _ q _ z => min_right_comm z p q) r0
      have hstep3 : (x :: t).foldl min r0 = (x :: t).foldl min x :=
        seed_mem_foldl_min (x :: t) r0 x hr0 (List.mem_cons_self x t)
      have hstep4 : (x :: t).foldl min x = t.foldl min x := by
        rw [List.foldl_cons, min_self]
      rw [hstep1, hstep2, hstep3, hstep4]

theorem tail_foldl_max_reverse (l : List ℝ) (hl : l ≠ []) :
    l.reverse.tail.foldl max (l.reverse.headD 0) =
      l.tail.foldl max (l.headD 0) := by
  rcases l with _ | ⟨x, t⟩
  · exact absurd rfl hl
  · rcases hr : (x :: t).reverse with _ | ⟨r0, rt⟩
    · have : (x :: t).reverse.length = 0 := by rw [hr]; rfl
      simp at this
    · have hr0 : r0 ∈ x :: t := by
        have : r0 ∈ (x :: t).reverse := by
          rw [hr]
          exact List.mem_cons_self r0 rt
        exact List.mem_reverse.mp this
      show rt.foldl max r0 = t.foldl max x
      have hstep1 : rt.foldl max r0 = (r0 :: rt).foldl max r0 := by
        rw [List.foldl_cons, max_self]
      have hstep2 : (r0 :: rt).foldl max r0 = (x :: t).foldl max r0 := by
        rw [← hr]
        exact List.Perm.foldl_eq' (List.reverse_perm (x :: t))
          (fun p _ q _ z => by rw [max_assoc, max_comm p q, ← max_assoc]) r0
      have hstep3 : (x :: t).foldl max r0 = (x :: t).foldl max x :=
        seed_mem_foldl_max (x :: t) r0 x hr0 (List.mem_cons_self x t)
      have hstep4 : (x :: t).foldl max x = t.foldl max x := by
        rw [List.foldl_cons, max_self]
      rw [hstep1, hstep2, hstep3, hstep4]

theorem headD_fst (l : List (ℝ × ℝ)) :
    (l.headD (0, 0)).1 = (l.map (·.1)).headD 0 := by
  cases l <;> rfl

theorem headD_snd (l : List (ℝ × ℝ)) :
    (l.headD (0, 0)).2 = (l.map (·.2)).headD 0 := by
  cases l <;> rfl

theorem pair_min_fst_reverse (l : List (ℝ × ℝ)) (hl : l ≠ []) :
    (l.reverse.tail.map (·.1)).foldl min ((l.reverse.headD (0, 0)).1) =
      (l.tail.map (·.1)).foldl min ((l.headD (0, 0)).1) := by
  have hmap : l.map (·.1) ≠ [] := by simpa using hl
  rw [List.map_tail, List.map_reverse, headD_fst, List.map_reverse,
    List.map_tail, headD_fst]
  exact tail_foldl_min_reverse _ hmap

theorem pair_max_fst_reverse (l : List (ℝ × ℝ)) (hl : l ≠ []) :
    (l.reverse.tail.map (·.1)).foldl max ((l.reverse.headD (0, 0)).1) =
      (l.tail.map (·.1)).foldl max ((l.headD (0, 0)).1) := by
  have hmap : l.map (·.1) ≠ [] := by simpa using hl
  rw [List.map_tail, List.map_reverse, headD_fst, List.map_reverse,
    List.map_tail, headD_fst]
  exact tail_foldl_max_reverse _ hmap

theorem pair_min_snd_reverse (l : List (ℝ × ℝ)) (hl : l ≠ []) :
    (l.reverse.tail.map (·.2)).foldl min ((l.reverse.headD (0, 0)).2) =
      (l.tail.map (·.2)).foldl min ((l.headD (0, 0)).2) := by
  have hmap : l.map (·.2) ≠ [] := by simpa using hl
  rw [List.map_tail, List.map_reverse, headD_snd, List.map_reverse,
    List.map_tail, headD_snd]
  exact tail_foldl_min_reverse _ hmap

theorem pair_max_snd_reverse (l : List (ℝ × ℝ)) (hl : l ≠ []) :
    (l.reverse.tail.map (·.2)).foldl max ((l.reverse.headD (0, 0)).2) =
      (l.tail.map (·.2)).foldl max ((l.headD (0, 0)).2) := by
  have hmap : l.map (·.2) ≠ [] := by simpa using hl
  rw [List.map_tail, List.map_reverse, headD_snd, List.map_reverse,
    List.map_tail, headD_snd]
  exact tail_foldl_max_reverse _ hmap

theorem headD_reverse_eq_getLastD (l : List (ℝ × ℝ)) :
    l.reverse.headD (0, 0) = l.getLastD (0, 0) := by
  rw [List.headD_eq_head?, List.head?_reverse, List.getLastD_eq_getLast?]

theorem getLastD_reverse_eq_headD (l : List (ℝ × ℝ)) :
    l.reverse.getLastD (0, 0) = l.headD (0, 0) := by
  rw [List.getLastD_eq_getLast?, List.getLast?_reverse, List.headD_eq_head?]

/-- Rasterizing the ring traversed backwards yields exactly the same
cell list. -/
theorem polygonToCells_reverse (pts poly : List (ℤ × ℤ)) :
    polygonToCells pts poly.reverse = polygonToCells pts poly := by
  unfold polygonToCells
  by_cases h4 : poly.length < 4
  · rw [if_pos (by rwa [List.length_reverse]), if_pos h4]
  · rw [if_neg (by rwa [List.length_reverse]), if_neg h4]
    have hM : pointsToMercator (poly.reverse.map (fun p => (p.2, p.1))) =
        (pointsToMercator (poly.map (fun p => (p.2, p.1)))).reverse := by
      unfold pointsToMercator
      rw [List.map_reverse, List.map_reverse]
    set M := pointsToMercator (poly.map (fun p => (p.2, p.1))) with hMdef
    have hMne : M ≠ [] := by
      have hlen : M.length = poly.length := by
        rw [hMdef]
        unfold pointsToMercator
        rw [List.length_map, List.length_map]
      intro h
      rw [h] at hlen
      simp only [List.length_nil] at hlen
      omega
    have hbbox : bboxFold M.reverse.tail
        ((M.reverse.headD (0, 0)).1, (M.reverse.headD (0, 0)).1,
         (M.reverse.headD (0, 0)).2, (M.reverse.headD (0, 0)).2) =
        bboxFold M.tail
        ((M.headD (0, 0)).1, (M.headD (0, 0)).1,
         (M.headD (0, 0)).2, (M.headD (0, 0)).2) := by
      rw [bboxFold_components, bboxFold_components,
        pair_min_fst_reverse M hMne, pair_max_fst_reverse M hMne,
        pair_min_snd_reverse M hMne, pair_max_snd_reverse M hMne]
    have hscan : ∀ X, rasterScan M.reverse X = rasterScan M X := by
      intro X
      unfold rasterScan
      have hstep : rasterStep M.reverse = rasterStep M := by
        funext acc c
        unfold rasterStep
        simp only [pointInPolygon_reverse]
      rw [hstep]
    rw [hM]
    dsimp only
    rw [hbbox, hscan, headD_reverse_eq_getLastD, getLastD_reverse_eq_headD,
      distanceMeters_comm (M.getLastD (0, 0)) (M.headD (0, 0))]

/-- C5: rasterizing the ring traversed in reverse vertex order yields
exactly the same cell list (in particular the same set of cell indices)
as rasterizing the original ring — the even-odd ray-casting test is
winding-direction independent — and the output of `polygonToCells`
contains no duplicate cell keys. -/
theorem C5_winding_independence (pts poly : List (ℤ × ℤ)) :
    polygonToCells pts poly.reverse = polygonToCells pts poly ∧
    ((polygonToCells pts poly).map (·.cellId)).Nodup :=
  ⟨polygonToCells_reverse pts poly, polygonToCells_nodup pts poly⟩

end Terrarun
